import Mathlib

/-!
# Verification of the 260208_SoapFilm geometry/solver core

Shallow embedding of the repository's core TypeScript modules
(`src/core/frameSampling.ts`, `src/core/filmTopology.ts`, `src/core/mst.ts`,
`src/core/solver.ts`) and proofs of the frozen specification claims.

Modelling conventions:
* JavaScript `number` (IEEE double) arithmetic is idealised over an arbitrary
  `LinearOrderedField α` with a `FloorRing α` instance (instantiated at `ℚ`
  for concrete witnesses; `ℝ` is the intended idealisation).  The
  transcendental operations `Math.PI`, `Math.sqrt`, `Math.cos`, `Math.sin`
  have no exact field realisation, so they are passed as an explicit
  `RealOps α` record of operations; theorems that need facts about them
  (for example `0 < pi` or `0 ≤ sqrt x`) take those facts as hypotheses.
* `Float32Array` / `Uint32Array` buffers become `List α` / `List ℕ`.
  JavaScript typed-array writes out of range are silently dropped, which is
  exactly the behaviour of `List.set`; reads are modelled with `List.getD`
  (out-of-range reads only occur outside the situations the claims cover).
* JavaScript `x % 1` double-mod normalisation `((x % 1) + 1) % 1` equals the
  mathematical fractional part for every finite `x`, so it is embedded as
  `Int.fract`.
-/

set_option maxHeartbeats 1000000
set_option linter.unusedSectionVars false
set_option linter.unusedVariables false

namespace SoapFilm

/-- The transcendental operations used by the source (`Math.PI`, `Math.sqrt`,
`Math.cos`, `Math.sin`), abstracted as data because they have no exact
realisation in a computable ordered field. -/
structure RealOps (α : Type) where
  pi : α
  sqrt : α → α
  cos : α → α
  sin : α → α

/-- three.js `Vector3`: a 3-component point/vector. -/
structure Vec3 (α : Type) where
  x : α
  y : α
  z : α
  deriving DecidableEq, Repr

variable {α : Type} [LinearOrderedField α] [FloorRing α]

/-- `EPSILON = 1e-8`, the numeric guard used throughout the source. -/
def EPS (α : Type) [LinearOrderedField α] : α := 1 / 100000000

/-- `Math.hypot(a, b)` (used for the triangle edge lengths). -/
def hypot (ops : RealOps α) (a b : α) : α := ops.sqrt (a * a + b * b)

/-- JavaScript `((x % 1) + 1) % 1`: for every finite double this equals the
mathematical fractional part, so the normalisation at the top of
`sampleBaseFramePointLocal` and `sampleClosedCatmullRomPoint` is `Int.fract`. -/
def jsFract (x : α) : α := Int.fract x

/-- The frame shape kinds of `FrameType`. -/
inductive FrameType where
  | circle
  | rectangle
  | square
  | triangle
  deriving DecidableEq, Repr

/-- The shape-relevant part of `FrameState` (`types.ts`): shape kind, shape
parameters, boundary sample count and the optional deformation control
points.  Pose data lives in `FrameRuntime.worldMatrix` below, which models
`object.matrixWorld`. -/
structure FrameState (α : Type) where
  type : FrameType
  radius : α
  width : α
  height : α
  boundarySamples : ℕ
  controlPoints : List (Vec3 α)
  deriving Repr

end SoapFilm

namespace SoapFilm

variable {α : Type} [LinearOrderedField α] [FloorRing α]

/-- `sampleTrianglePoint` (frameSampling.ts lines 101-132): isosceles triangle
walked by arclength.  Each division by an edge length is guarded by
`length <= 1e-8 ? 0 : distance / length`. -/
def sampleTrianglePoint (ops : RealOps α) (width height t : α) : Vec3 α :=
  let halfWidth := width * (1/2)
  let halfHeight := height * (1/2)
  let ax : α := 0
  let ay := halfHeight
  let bx := -halfWidth
  let by_ := -halfHeight
  let cx := halfWidth
  let cy := -halfHeight
  let abLength := hypot ops (bx - ax) (by_ - ay)
  let bcLength := hypot ops (cx - bx) (cy - by_)
  let caLength := hypot ops (ax - cx) (ay - cy)
  let perimeter := abLength + bcLength + caLength
  let distance := t * perimeter
  if distance ≤ abLength then
    let alpha := if abLength ≤ EPS α then 0 else distance / abLength
    ⟨ax + (bx - ax) * alpha, ay + (by_ - ay) * alpha, 0⟩
  else
    let distance := distance - abLength
    if distance ≤ bcLength then
      let alpha := if bcLength ≤ EPS α then 0 else distance / bcLength
      ⟨bx + (cx - bx) * alpha, by_ + (cy - by_) * alpha, 0⟩
    else
      let distance := distance - bcLength
      let alpha := if caLength ≤ EPS α then 0 else distance / caLength
      ⟨cx + (ax - cx) * alpha, cy + (ay - cy) * alpha, 0⟩

/-- The list of divisors actually used in divisions by `sampleTrianglePoint`
(a division is performed exactly when its `1e-8` guard fails). -/
def sampleTriangleDivisors (ops : RealOps α) (width height t : α) : List α :=
  let halfWidth := width * (1/2)
  let halfHeight := height * (1/2)
  let ax : α := 0
  let ay := halfHeight
  let bx := -halfWidth
  let by_ := -halfHeight
  let cx := halfWidth
  let cy := -halfHeight
  let abLength := hypot ops (bx - ax) (by_ - ay)
  let bcLength := hypot ops (cx - bx) (cy - by_)
  let caLength := hypot ops (ax - cx) (ay - cy)
  let perimeter := abLength + bcLength + caLength
  let distance := t * perimeter
  if distance ≤ abLength then
    if abLength ≤ EPS α then [] else [abLength]
  else
    let distance := distance - abLength
    if distance ≤ bcLength then
      if bcLength ≤ EPS α then [] else [bcLength]
    else
      if caLength ≤ EPS α then [] else [caLength]

/-- `pointOnRoundedRectSegment` (frameSampling.ts lines 203-248).  Note the
quarter-arc branches (odd segment indices) divide `distance / r` with no
epsilon clamp. -/
def pointOnRoundedRectSegment (ops : RealOps α)
    (segmentIndex : ℕ) (distance hw hh r : α) : Vec3 α :=
  if segmentIndex = 0 then
    ⟨-hw + r + distance, hh, 0⟩
  else if segmentIndex = 1 then
    let angle := ops.pi * (1/2) - distance / r
    ⟨hw - r + ops.cos angle * r, hh - r + ops.sin angle * r, 0⟩
  else if segmentIndex = 2 then
    ⟨hw, hh - r - distance, 0⟩
  else if segmentIndex = 3 then
    let angle := -(distance / r)
    ⟨hw - r + ops.cos angle * r, -hh + r + ops.sin angle * r, 0⟩
  else if segmentIndex = 4 then
    ⟨hw - r - distance, -hh, 0⟩
  else if segmentIndex = 5 then
    let angle := -(ops.pi * (1/2)) - distance / r
    ⟨-hw + r + ops.cos angle * r, -hh + r + ops.sin angle * r, 0⟩
  else if segmentIndex = 6 then
    ⟨-hw, -hh + r + distance, 0⟩
  else
    let angle := ops.pi - distance / r
    ⟨-hw + r + ops.cos angle * r, hh - r + ops.sin angle * r, 0⟩

/-- The walking loop of `sampleRoundedRectanglePoint`: find the first segment
whose length (plus the `1e-8` tolerance) covers the remaining distance,
returning the segment index and the residual distance. -/
def findRectSegment : List α → ℕ → α → Option (ℕ × α)
  | [], _, _ => none
  | seg :: rest, idx, distance =>
    if distance ≤ seg + EPS α then some (idx, distance)
    else findRectSegment rest (idx + 1) (distance - seg)

/-- The 8 arclength segments of the rounded rectangle (4 edges alternating
with 4 quarter arcs), as listed in `sampleRoundedRectanglePoint`. -/
def rectSegments (ops : RealOps α) (edgeA edgeB r : α) : List α :=
  [edgeA, ops.pi * (1/2) * r, edgeB, ops.pi * (1/2) * r,
   edgeA, ops.pi * (1/2) * r, edgeB, ops.pi * (1/2) * r]

/-- `sampleRoundedRectanglePoint` (frameSampling.ts lines 171-201). -/
def sampleRoundedRectanglePoint (ops : RealOps α) (width height t : α) : Vec3 α :=
  let halfWidth := width * (1/2)
  let halfHeight := height * (1/2)
  let cornerRadius := min (min width height * (18/100)) (min halfWidth halfHeight)
  let edgeA := width - 2 * cornerRadius
  let edgeB := height - 2 * cornerRadius
  let perimeter := 2 * (edgeA + edgeB) + (2 * ops.pi) * cornerRadius
  let distance := t * perimeter
  match findRectSegment (rectSegments ops edgeA edgeB cornerRadius) 0 distance with
  | some (idx, d) => pointOnRoundedRectSegment ops idx d halfWidth halfHeight cornerRadius
  | none => ⟨halfWidth - cornerRadius, halfHeight, 0⟩

/-- The divisors used in divisions by `sampleRoundedRectanglePoint`: the
quarter-arc branches (odd segment indices) divide by the corner radius. -/
def sampleRoundedRectangleDivisors (ops : RealOps α) (width height t : α) : List α :=
  let halfWidth := width * (1/2)
  let halfHeight := height * (1/2)
  let cornerRadius := min (min width height * (18/100)) (min halfWidth halfHeight)
  let edgeA := width - 2 * cornerRadius
  let edgeB := height - 2 * cornerRadius
  let perimeter := 2 * (edgeA + edgeB) + (2 * ops.pi) * cornerRadius
  let distance := t * perimeter
  match findRectSegment (rectSegments ops edgeA edgeB cornerRadius) 0 distance with
  | some (idx, _) => if idx % 2 = 1 then [cornerRadius] else []
  | none => []

/-- `sampleClosedCatmullRomPoint` (frameSampling.ts lines 134-169): closed
uniform Catmull-Rom spline with wraparound control-point indexing. -/
def sampleClosedCatmullRomPoint (controlPoints : List (Vec3 α)) (curveParamT : α) : Vec3 α :=
  let count := controlPoints.length
  let t := jsFract curveParamT
  let scaled := t * (count : α)
  let segment := (⌊scaled⌋.toNat) % count
  let localT := scaled - (⌊scaled⌋ : α)
  let p0 := controlPoints.getD ((segment + count - 1) % count) ⟨0, 0, 0⟩
  let p1 := controlPoints.getD segment ⟨0, 0, 0⟩
  let p2 := controlPoints.getD ((segment + 1) % count) ⟨0, 0, 0⟩
  let p3 := controlPoints.getD ((segment + 2) % count) ⟨0, 0, 0⟩
  let tt := localT * localT
  let ttt := tt * localT
  ⟨(1/2) * (2 * p1.x + (-p0.x + p2.x) * localT +
      (2 * p0.x - 5 * p1.x + 4 * p2.x - p3.x) * tt +
      (-p0.x + 3 * p1.x - 3 * p2.x + p3.x) * ttt),
   (1/2) * (2 * p1.y + (-p0.y + p2.y) * localT +
      (2 * p0.y - 5 * p1.y + 4 * p2.y - p3.y) * tt +
      (-p0.y + 3 * p1.y - 3 * p2.y + p3.y) * ttt),
   (1/2) * (2 * p1.z + (-p0.z + p2.z) * localT +
      (2 * p0.z - 5 * p1.z + 4 * p2.z - p3.z) * tt +
      (-p0.z + 3 * p1.z - 3 * p2.z + p3.z) * ttt)⟩

/-- `sampleBaseFramePointLocal` (frameSampling.ts lines 79-99). -/
def sampleBaseFramePointLocal (ops : RealOps α) (frame : FrameState α) (curveParamT : α) : Vec3 α :=
  let t := jsFract curveParamT
  match frame.type with
  | .circle =>
    let angle := t * (2 * ops.pi)
    ⟨ops.cos angle * frame.radius, ops.sin angle * frame.radius, 0⟩
  | .square => sampleRoundedRectanglePoint ops frame.width frame.width t
  | .triangle => sampleTrianglePoint ops frame.width frame.height t
  | .rectangle => sampleRoundedRectanglePoint ops frame.width frame.height t

/-- `sampleFramePointLocal` (frameSampling.ts lines 37-47): spline deformation
overrides the base shape when at least 4 control points are present. -/
def sampleFramePointLocal (ops : RealOps α) (frame : FrameState α) (curveParamT : α) : Vec3 α :=
  if 4 ≤ frame.controlPoints.length then
    sampleClosedCatmullRomPoint frame.controlPoints curveParamT
  else
    sampleBaseFramePointLocal ops frame curveParamT

/-- `sampleFrameBoundaryLocal` (frameSampling.ts lines 49-55). -/
def sampleFrameBoundaryLocal (ops : RealOps α) (frame : FrameState α) (samples : ℕ) : List (Vec3 α) :=
  (List.range samples).map fun i : ℕ => sampleFramePointLocal ops frame ((i : α) / (samples : α))

end SoapFilm

namespace SoapFilm

variable {α : Type} [LinearOrderedField α] [FloorRing α]

/-- Concrete rational operations used by closed witnesses/counterexamples:
`pi` is the rational approximation `355/113`; `sqrt` is stubbed by `|·|`
(which satisfies the only facts the theorems assume about `Math.sqrt`,
namely non-negativity); `cos`/`sin` are irrelevant to the statements they
are used in. -/
def ratOps : RealOps ℚ where
  pi := 355 / 113
  sqrt := fun x => |x|
  cos := fun _ => 0
  sin := fun _ => 0

/-- Walking lemma: if the segment walk settles on segment `j` with residual
distance `d`, then `j` lies in the list, `d` is within tolerance of segment
`j`'s length, and unless `j` is the very first segment tried, the previous
failed check forces `EPS < d`. -/
theorem findRectSegment_spec :
    ∀ (segs : List α) (idx : ℕ) (distance : α) (j : ℕ) (d : α),
      findRectSegment segs idx distance = some (j, d) →
      idx ≤ j ∧ j - idx < segs.length ∧ d ≤ segs.getD (j - idx) 0 + EPS α ∧
        ((j = idx ∧ d = distance) ∨ EPS α < d) := by
  intro segs
  induction segs with
  | nil => intro idx distance j d h; simp [findRectSegment] at h
  | cons seg rest ih =>
    intro idx distance j d h
    by_cases hcond : distance ≤ seg + EPS α
    · rw [findRectSegment, if_pos hcond] at h
      have hinj := Option.some.inj h
      obtain ⟨hj, hd⟩ : j = idx ∧ d = distance :=
        ⟨(congrArg Prod.fst hinj).symm, (congrArg Prod.snd hinj).symm⟩
      subst hj; subst hd
      refine ⟨le_refl _, by simp, by simpa using hcond, Or.inl ⟨rfl, rfl⟩⟩
    · rw [findRectSegment, if_neg hcond] at h
      obtain ⟨h1, h2, h3, h4⟩ := ih (idx + 1) (distance - seg) j d h
      have hij : idx ≤ j := le_trans (Nat.le_succ idx) h1
      have hsub : j - idx = (j - (idx + 1)) + 1 := by omega
      refine ⟨hij, by simp only [List.length_cons]; omega, ?_, ?_⟩
      · rw [hsub]; simpa using h3
      · right
        rcases h4 with ⟨-, hd⟩ | h4
        · subst hd
          have := lt_of_not_le hcond
          linarith
        · exact h4

/-- Amended C6: no division in the base-shape samplers ever has a zero
divisor (so, idealising IEEE arithmetic, no NaN or Infinity is produced):
the triangle sampler's divisors are explicitly `1e-8`-clamped, and although
the rounded-rectangle quarter-arc division by the corner radius is *not*
clamped, the `1e-8` tolerance in the segment walk guarantees the corner
radius is strictly positive whenever that division is reached. -/
theorem samplerDivisors_nonzero (ops : RealOps α) (hpi : 0 < ops.pi)
    (width height t : α) :
    (∀ d ∈ sampleRoundedRectangleDivisors ops width height t, 0 < d) ∧
    (∀ d ∈ sampleTriangleDivisors ops width height t, EPS α < d) := by
  constructor
  · intro d hd
    simp only [sampleRoundedRectangleDivisors] at hd
    set r := min (min width height * (18/100)) (min (width * (1/2)) (height * (1/2)))
      with hr
    rcases hfind : findRectSegment
        (rectSegments ops (width - 2 * r) (height - 2 * r) r) 0
        (t * (2 * ((width - 2 * r) + (height - 2 * r)) + (2 * ops.pi) * r)) with _ | ⟨j, d0⟩
    · rw [hfind] at hd; simp at hd
    · rw [hfind] at hd
      dsimp only at hd
      by_cases hodd : j % 2 = 1
      · rw [if_pos hodd] at hd
        rw [List.mem_singleton] at hd
        subst hd
        obtain ⟨-, hlen, hle, hor⟩ := findRectSegment_spec _ 0 _ j d0 hfind
        have heps : EPS α < d0 := by
          rcases hor with ⟨hj0, -⟩ | h
          · omega
          · exact h
        have hj8 : j < 8 := by simpa [rectSegments] using hlen
        have hseg : (rectSegments ops (width - 2 * r) (height - 2 * r) r).getD (j - 0) 0
            = ops.pi * (1/2) * r := by
          interval_cases j <;> simp_all [rectSegments]
        rw [hseg] at hle
        by_contra hcon
        push_neg at hcon
        have hpr : ops.pi * (1/2) * r ≤ 0 := by
          nlinarith [mul_nonneg hpi.le (neg_nonneg.mpr hcon)]
        exact lt_irrefl (EPS α) (lt_of_lt_of_le heps (by linarith))
      · rw [if_neg hodd] at hd
        simp at hd
  · intro d hd
    simp only [sampleTriangleDivisors] at hd
    split_ifs at hd <;>
      first
        | exact absurd hd (List.not_mem_nil d)
        | (rw [List.mem_singleton] at hd; subst hd; exact lt_of_not_le (by assumption))

/-- Witness for `samplerDivisors_nonzero` at the concrete rational operations
and shape parameters width 3, height 2, t = 1/3. -/
theorem samplerDivisors_nonzero_witness :
    0 < ratOps.pi ∧
      ((∀ d ∈ sampleRoundedRectangleDivisors ratOps 3 2 (1/3), 0 < d) ∧
       (∀ d ∈ sampleTriangleDivisors ratOps 3 2 (1/3), EPS ℚ < d)) :=
  ⟨by norm_num [ratOps], samplerDivisors_nonzero ratOps (by norm_num [ratOps]) 3 2 (1/3)⟩

/-- C6 counterexample: at width 2, height 1e-9 and the explicit parameter
below, the rounded-rectangle walk settles on the first quarter-arc segment
and performs the division `distance / cornerRadius` with divisor
`cornerRadius = 1.8e-10`, which is positive but smaller than `1e-8`: the
quarter-arc division is *not* epsilon-clamped.  (The branch decisions have
margins of at least `1e-10` around rational `pi = 355/113`, so the same
branch is taken with the true `Math.PI`.) -/
theorem roundedRect_arc_division_unclamped :
    ∃ d ∈ sampleRoundedRectangleDivisors ratOps 2 (1 / 1000000000)
        ((2 + 974 / 100000000000) /
          (2 * ((2 - 36 / 100000000000) + 64 / 100000000000) +
            2 * (355 / 113) * (18 / 100000000000))),
      0 < d ∧ d < EPS ℚ := by
  norm_num [sampleRoundedRectangleDivisors, rectSegments, findRectSegment,
    EPS, ratOps, min_def]

/-- C5: for every shape kind, every shape parameters and both with and
without spline deformation (the dispatch in `sampleFramePointLocal` covers
both branches), sampling the local boundary point at parameter 0 and at
parameter 1 yields identical points, because both samplers normalise the
parameter by `((t % 1) + 1) % 1`. -/
theorem sampleFramePointLocal_closed_loop (ops : RealOps α) (frame : FrameState α) :
    sampleFramePointLocal ops frame 0 = sampleFramePointLocal ops frame 1 := by
  have h0 : jsFract (0 : α) = 0 := by simp [jsFract]
  have h1 : jsFract (1 : α) = 0 := by simp [jsFract]
  simp only [sampleFramePointLocal, sampleClosedCatmullRomPoint,
    sampleBaseFramePointLocal, h0, h1]

end SoapFilm

namespace SoapFilm

variable {α : Type} [LinearOrderedField α] [FloorRing α]

/-- The area contribution of one triangle in `computeSurfaceArea`
(solver.ts lines 168-195): half the magnitude of the cross product of the
two edge vectors out of the first vertex, with vertex coordinates read at
flat offsets `index * 3 .. index * 3 + 2`. -/
def triArea (ops : RealOps α) (positions : List α) (a b c : ℕ) : α :=
  let ax := positions.getD (a * 3) 0
  let ay := positions.getD (a * 3 + 1) 0
  let az := positions.getD (a * 3 + 2) 0
  let bx := positions.getD (b * 3) 0
  let by_ := positions.getD (b * 3 + 1) 0
  let bz := positions.getD (b * 3 + 2) 0
  let cx := positions.getD (c * 3) 0
  let cy := positions.getD (c * 3 + 1) 0
  let cz := positions.getD (c * 3 + 2) 0
  let abx := bx - ax
  let aby := by_ - ay
  let abz := bz - az
  let acx := cx - ax
  let acy := cy - ay
  let acz := cz - az
  let crossX := aby * acz - abz * acy
  let crossY := abz * acx - abx * acz
  let crossZ := abx * acy - aby * acx
  (1/2) * ops.sqrt (crossX * crossX + crossY * crossY + crossZ * crossZ)

/-- `computeSurfaceArea` (solver.ts lines 165-198): sum of `triArea` over
consecutive index triples.  (The source accumulates left to right; field
addition is associative and commutative, so the recursive sum has the same
value.) -/
def computeSurfaceArea (ops : RealOps α) (positions : List α) : List ℕ → α
  | a :: b :: c :: rest => triArea ops positions a b c + computeSurfaceArea ops positions rest
  | _ => 0

theorem computeSurfaceArea_nil (ops : RealOps α) (ps : List α) :
    computeSurfaceArea ops ps [] = 0 := rfl

theorem triArea_nonneg (ops : RealOps α) (hsqrt : ∀ x, 0 ≤ ops.sqrt x)
    (ps : List α) (a b c : ℕ) : 0 ≤ triArea ops ps a b c := by
  simp only [triArea]
  exact mul_nonneg (by norm_num) (hsqrt _)

theorem computeSurfaceArea_nonneg (ops : RealOps α) (hsqrt : ∀ x, 0 ≤ ops.sqrt x)
    (ps : List α) : ∀ indices, 0 ≤ computeSurfaceArea ops ps indices
  | [] => le_refl 0
  | [x] => le_refl 0
  | [x, y] => le_refl 0
  | a :: b :: c :: rest => by
    have h1 := triArea_nonneg ops hsqrt ps a b c
    have h2 := computeSurfaceArea_nonneg ops hsqrt ps rest
    simp only [computeSurfaceArea]
    linarith

theorem computeSurfaceArea_append (ops : RealOps α) (ps : List α) :
    ∀ (pre rest : List ℕ), pre.length % 3 = 0 →
      computeSurfaceArea ops ps (pre ++ rest) =
        computeSurfaceArea ops ps pre + computeSurfaceArea ops ps rest
  | [], rest, _ => by simp [computeSurfaceArea]
  | [x], rest, h => by simp at h
  | [x, y], rest, h => by simp at h
  | a :: b :: c :: pre', rest, h => by
    have h' : pre'.length % 3 = 0 := by
      simp only [List.length_cons] at h; omega
    simp only [List.cons_append, computeSurfaceArea, List.append_eq]
    rw [computeSurfaceArea_append ops ps pre' rest h']
    ring

theorem triArea_swap (ops : RealOps α) (ps : List α) (a b c : ℕ) :
    triArea ops ps a b c = triArea ops ps a c b := by
  simp only [triArea]
  congr 1
  congr 1
  ring

theorem triArea_rot (ops : RealOps α) (ps : List α) (a b c : ℕ) :
    triArea ops ps a b c = triArea ops ps b c a := by
  simp only [triArea]
  congr 1
  congr 1
  ring

theorem perm_pair_cases {x y a b : ℕ} (h : [x, y].Perm [a, b]) :
    (x = a ∧ y = b) ∨ (x = b ∧ y = a) := by
  have hx : x ∈ [a, b] := h.mem_iff.mp (by simp)
  simp only [List.mem_cons, List.mem_singleton, List.not_mem_nil, or_false] at hx
  rcases hx with rfl | rfl
  · left
    refine ⟨rfl, ?_⟩
    have := (List.perm_cons x).mp h
    have h3 : y = b := by simpa using this
    exact h3
  · right
    refine ⟨rfl, ?_⟩
    have h2 : [x, y].Perm [x, a] := h.trans (List.Perm.swap x a [])
    have := (List.perm_cons x).mp h2
    have h3 : y = a := by simpa using this
    exact h3

theorem perm_triple_cases {x y z a b c : ℕ} (h : [x, y, z].Perm [a, b, c]) :
    (x = a ∧ y = b ∧ z = c) ∨ (x = a ∧ y = c ∧ z = b) ∨
    (x = b ∧ y = a ∧ z = c) ∨ (x = b ∧ y = c ∧ z = a) ∨
    (x = c ∧ y = a ∧ z = b) ∨ (x = c ∧ y = b ∧ z = a) := by
  have hx : x ∈ [a, b, c] := h.mem_iff.mp (by simp)
  simp only [List.mem_cons, List.mem_singleton, List.not_mem_nil, or_false] at hx
  rcases hx with rfl | rfl | rfl
  · have h2 : [y, z].Perm [b, c] := (List.perm_cons x).mp h
    rcases perm_pair_cases h2 with ⟨rfl, rfl⟩ | ⟨rfl, rfl⟩
    · exact Or.inl ⟨rfl, rfl, rfl⟩
    · exact Or.inr (Or.inl ⟨rfl, rfl, rfl⟩)
  · have hswap : [a, x, c].Perm [x, a, c] := List.Perm.swap x a [c]
    have h2 : [y, z].Perm [a, c] := (List.perm_cons x).mp (h.trans hswap)
    rcases perm_pair_cases h2 with ⟨rfl, rfl⟩ | ⟨rfl, rfl⟩
    · exact Or.inr (Or.inr (Or.inl ⟨rfl, rfl, rfl⟩))
    · exact Or.inr (Or.inr (Or.inr (Or.inl ⟨rfl, rfl, rfl⟩)))
  · have hperm : [a, b, x].Perm [x, a, b] := by
      have s1 : [a, b, x].Perm [a, x, b] := List.Perm.cons a (List.Perm.swap x b [])
      have s2 : [a, x, b].Perm [x, a, b] := List.Perm.swap x a [b]
      exact s1.trans s2
    have h2 : [y, z].Perm [a, b] := (List.perm_cons x).mp (h.trans hperm)
    rcases perm_pair_cases h2 with ⟨rfl, rfl⟩ | ⟨rfl, rfl⟩
    · exact Or.inr (Or.inr (Or.inr (Or.inr (Or.inl ⟨rfl, rfl, rfl⟩))))
    · exact Or.inr (Or.inr (Or.inr (Or.inr (Or.inr ⟨rfl, rfl, rfl⟩))))

theorem triArea_perm (ops : RealOps α) (ps : List α) {a₁ b₁ c₁ a₂ b₂ c₂ : ℕ}
    (hperm : [a₂, b₂, c₂].Perm [a₁, b₁, c₁]) :
    triArea ops ps a₁ b₁ c₁ = triArea ops ps a₂ b₂ c₂ := by
  rcases perm_triple_cases hperm with hP | hP | hP | hP | hP | hP <;>
    obtain ⟨rfl, rfl, rfl⟩ := hP
  · rfl
  · exact triArea_swap ops ps _ _ _
  · exact (triArea_rot ops ps _ _ _).trans (triArea_swap ops ps _ _ _)
  · exact triArea_rot ops ps _ _ _
  · exact (triArea_rot ops ps _ _ _).trans (triArea_rot ops ps _ _ _)
  · exact ((triArea_rot ops ps _ _ _).trans (triArea_rot ops ps _ _ _)).trans
      (triArea_swap ops ps _ _ _)

/-- C8: `computeSurfaceArea` is non-negative (given that `Math.sqrt` is
non-negative), and replacing any aligned index triple by a permutation of it
(in particular reversing its winding) leaves the total area unchanged. -/
theorem computeSurfaceArea_nonneg_and_winding_invariant (ops : RealOps α)
    (hsqrt : ∀ x, 0 ≤ ops.sqrt x) (ps : List α) (indices pre post : List ℕ)
    (a₁ b₁ c₁ a₂ b₂ c₂ : ℕ) (hpre : pre.length % 3 = 0)
    (hperm : [a₂, b₂, c₂].Perm [a₁, b₁, c₁]) :
    0 ≤ computeSurfaceArea ops ps indices ∧
      computeSurfaceArea ops ps (pre ++ a₁ :: b₁ :: c₁ :: post) =
        computeSurfaceArea ops ps (pre ++ a₂ :: b₂ :: c₂ :: post) := by
  refine ⟨computeSurfaceArea_nonneg ops hsqrt ps indices, ?_⟩
  rw [computeSurfaceArea_append ops ps pre _ hpre,
    computeSurfaceArea_append ops ps pre _ hpre]
  simp only [computeSurfaceArea]
  rw [triArea_perm ops ps hperm]

/-- Witness for `computeSurfaceArea_nonneg_and_winding_invariant` at a
concrete rational triangle with the winding-reversing permutation. -/
theorem computeSurfaceArea_winding_witness :
    (∀ x : ℚ, 0 ≤ ratOps.sqrt x) ∧ (([] : List ℕ).length % 3 = 0) ∧
      ([0, 2, 1] : List ℕ).Perm [0, 1, 2] ∧
      (0 ≤ computeSurfaceArea ratOps [0, 0, 0, 1, 0, 0, 0, 1, 0] [0, 1, 2] ∧
        computeSurfaceArea ratOps [0, 0, 0, 1, 0, 0, 0, 1, 0] ([] ++ 0 :: 1 :: 2 :: []) =
          computeSurfaceArea ratOps [0, 0, 0, 1, 0, 0, 0, 1, 0] ([] ++ 0 :: 2 :: 1 :: [])) :=
  ⟨fun x => by simp [ratOps], by decide, by decide,
    computeSurfaceArea_nonneg_and_winding_invariant ratOps (fun x => by simp [ratOps])
      [0, 0, 0, 1, 0, 0, 0, 1, 0] [0, 1, 2] [] [] 0 1 2 0 2 1 (by decide) (by decide)⟩

end SoapFilm

namespace SoapFilm

variable {α : Type} [LinearOrderedField α] [FloorRing α]

/-- `BoundaryConstraint` (types.ts): a binding of one mesh vertex to a
(frame, curve parameter) pair. -/
structure BoundaryConstraint (α : Type) where
  vertexIndex : ℕ
  frameId : String
  curveParamT : α

/-- `SolverConfig` (types.ts). -/
structure SolverConfig (α : Type) where
  substeps : ℕ
  stepSize : α
  damping : α
  laplacianWeight : α
  relaxationStrength : α
  shapeRetention : α

/-- `DEFAULT_SOLVER_CONFIG` (solver.ts lines 15-22). -/
def DEFAULT_SOLVER_CONFIG (α : Type) [LinearOrderedField α] : SolverConfig α :=
  ⟨4, 14/100, 92/100, 2/10, 1, 0⟩

/-- `FilmState` (types.ts): flat `Float32Array` buffers become `List α`. -/
structure FilmState (α : Type) where
  positions : List α
  velocities : List α
  indices : List ℕ
  boundaryConstraints : List (BoundaryConstraint α)
  restPositions : List α
  solverConfig : SolverConfig α

/-- `SolverContext` (solver.ts lines 5-11).  The `gradient`,
`scratchPositions` and `scratchVelocities` buffers are fully overwritten
(`fill(0)` / `set(...)`) at the start of every substep before being read, so
they carry no state between substeps; the functional model therefore passes
their contents explicitly instead of storing them. -/
structure SolverContext where
  boundaryMask : List ℕ
  neighbors : List (List ℕ)

/-- JavaScript `Set.add` on the neighbor set of vertex `i`: insertion-ordered,
deduplicating append (solver.ts lines 52-57). -/
def addNeighbor (nbrs : List (List ℕ)) (i j : ℕ) : List (List ℕ) :=
  nbrs.set i (if j ∈ nbrs.getD i [] then nbrs.getD i [] else nbrs.getD i [] ++ [j])

/-- The triangle loop of `createSolverContext` (solver.ts lines 47-58). -/
def collectNeighbors : List ℕ → List (List ℕ) → List (List ℕ)
  | a :: b :: c :: rest, nbrs =>
    collectNeighbors rest
      (addNeighbor (addNeighbor (addNeighbor (addNeighbor (addNeighbor (addNeighbor
        nbrs a b) a c) b a) b c) c a) c b)
  | _, nbrs => nbrs

/-- The boundary-mask loop of `createSolverContext` (solver.ts lines 60-63). -/
def buildBoundaryMask (vertexCount : ℕ) (constraints : List (BoundaryConstraint α)) : List ℕ :=
  constraints.foldl (fun mask c => mask.set c.vertexIndex 1) (List.replicate vertexCount 0)

/-- `createSolverContext` (solver.ts lines 43-72). -/
def createSolverContext (fs : FilmState α) : SolverContext where
  boundaryMask := buildBoundaryMask (fs.positions.length / 3) fs.boundaryConstraints
  neighbors := collectNeighbors fs.indices (List.replicate (fs.positions.length / 3) [])

/-- One constraint application inside `projectBoundaries` (solver.ts lines
200-216): if the sampler yields a point, overwrite that vertex's position
with it and zero its velocity; otherwise leave both untouched. -/
def applyConstraint (sampler : BoundaryConstraint α → Option (Vec3 α))
    (pv : List α × List α) (c : BoundaryConstraint α) : List α × List α :=
  match sampler c with
  | none => pv
  | some point =>
    let off := c.vertexIndex * 3
    (((pv.1.set off point.x).set (off + 1) point.y).set (off + 2) point.z,
     ((pv.2.set off 0).set (off + 1) 0).set (off + 2) 0)

/-- `projectBoundaries` (solver.ts lines 200-216). -/
def projectBoundaries (constraints : List (BoundaryConstraint α))
    (sampler : BoundaryConstraint α → Option (Vec3 α))
    (pv : List α × List α) : List α × List α :=
  constraints.foldl (applyConstraint sampler) pv

/-- Accumulating `value` into the gradient buffer at a flat offset. -/
def addAt (g : List α) (off : ℕ) (v : α) : List α := g.set off (g.getD off 0 + v)

/-- The per-triangle body of `accumulateAreaGradient` (solver.ts lines
221-293): closed-form triangle-area gradient via edge vectors and the unit
face normal, skipped when the normal length is below `1e-8`. -/
def triGradient (ops : RealOps α) (positions : List α) (a b c : ℕ) (g : List α) : List α :=
  let ax := positions.getD (a * 3) 0
  let ay := positions.getD (a * 3 + 1) 0
  let az := positions.getD (a * 3 + 2) 0
  let bx := positions.getD (b * 3) 0
  let by_ := positions.getD (b * 3 + 1) 0
  let bz := positions.getD (b * 3 + 2) 0
  let cx := positions.getD (c * 3) 0
  let cy := positions.getD (c * 3 + 1) 0
  let cz := positions.getD (c * 3 + 2) 0
  let e1x := bx - ax
  let e1y := by_ - ay
  let e1z := bz - az
  let e2x := cx - ax
  let e2y := cy - ay
  let e2z := cz - az
  let nx := e1y * e2z - e1z * e2y
  let ny := e1z * e2x - e1x * e2z
  let nz := e1x * e2y - e1y * e2x
  let normalLength := ops.sqrt (nx * nx + ny * ny + nz * nz)
  if normalLength < EPS α then g
  else
    let invNormalLength := 1 / normalLength
    let unx := nx * invNormalLength
    let uny := ny * invNormalLength
    let unz := nz * invNormalLength
    let bmcx := bx - cx
    let bmcy := by_ - cy
    let bmcz := bz - cz
    let gradAx := (1/2) * (bmcy * unz - bmcz * uny)
    let gradAy := (1/2) * (bmcz * unx - bmcx * unz)
    let gradAz := (1/2) * (bmcx * uny - bmcy * unx)
    let cmax := cx - ax
    let cmay := cy - ay
    let cmaz := cz - az
    let gradBx := (1/2) * (cmay * unz - cmaz * uny)
    let gradBy := (1/2) * (cmaz * unx - cmax * unz)
    let gradBz := (1/2) * (cmax * uny - cmay * unx)
    let ambx := ax - bx
    let amby := ay - by_
    let ambz := az - bz
    let gradCx := (1/2) * (amby * unz - ambz * uny)
    let gradCy := (1/2) * (ambz * unx - ambx * unz)
    let gradCz := (1/2) * (ambx * uny - amby * unx)
    addAt (addAt (addAt (addAt (addAt (addAt (addAt (addAt (addAt g
      (a * 3) gradAx) (a * 3 + 1) gradAy) (a * 3 + 2) gradAz)
      (b * 3) gradBx) (b * 3 + 1) gradBy) (b * 3 + 2) gradBz)
      (c * 3) gradCx) (c * 3 + 1) gradCy) (c * 3 + 2) gradCz

/-- `accumulateAreaGradient` (solver.ts lines 218-294). -/
def accumulateAreaGradient (ops : RealOps α) (positions : List α) :
    List ℕ → List α → List α
  | a :: b :: c :: rest, g =>
    accumulateAreaGradient ops positions rest (triGradient ops positions a b c g)
  | _, g => g

/-- The `nextVelocity` triple computed by the free-vertex integration loop of
`runRelaxationStep` (solver.ts lines 101-137): all reads come from the
frozen snapshot arrays (`positions`, `velocities`, `restPositions`,
`gradient`), never from the scratch buffers being written. -/
def integratedVelocity (cfg : SolverConfig α) (ctx : SolverContext)
    (positions velocities restPositions gradient : List α)
    (vertexIndex : ℕ) : Vec3 α :=
  let off := vertexIndex * 3
  let px := positions.getD off 0
  let py := positions.getD (off + 1) 0
  let pz := positions.getD (off + 2) 0
  let rx := restPositions.getD off 0
  let ry := restPositions.getD (off + 1) 0
  let rz := restPositions.getD (off + 2) 0
  let gx := gradient.getD off 0
  let gy := gradient.getD (off + 1) 0
  let gz := gradient.getD (off + 2) 0
  let nbrs := ctx.neighbors.getD vertexIndex []
  let lapX := if nbrs.length > 0 then
      (nbrs.foldl (fun s n => s + positions.getD (n * 3) 0) 0) * (1 / (nbrs.length : α)) - px
    else 0
  let lapY := if nbrs.length > 0 then
      (nbrs.foldl (fun s n => s + positions.getD (n * 3 + 1) 0) 0) * (1 / (nbrs.length : α)) - py
    else 0
  let lapZ := if nbrs.length > 0 then
      (nbrs.foldl (fun s n => s + positions.getD (n * 3 + 2) 0) 0) * (1 / (nbrs.length : α)) - pz
    else 0
  let forceScale := max 0 cfg.relaxationStrength
  let retentionScale := max 0 cfg.shapeRetention
  let accelX := (-gx + cfg.laplacianWeight * lapX) * forceScale + (rx - px) * retentionScale
  let accelY := (-gy + cfg.laplacianWeight * lapY) * forceScale + (ry - py) * retentionScale
  let accelZ := (-gz + cfg.laplacianWeight * lapZ) * forceScale + (rz - pz) * retentionScale
  ⟨velocities.getD off 0 * cfg.damping + accelX * cfg.stepSize,
   velocities.getD (off + 1) 0 * cfg.damping + accelY * cfg.stepSize,
   velocities.getD (off + 2) 0 * cfg.damping + accelZ * cfg.stepSize⟩

/-- The forward-Euler position update of the same loop (solver.ts lines
143-145): `position + newVelocity * stepSize`, componentwise. -/
def integratedPosition (cfg : SolverConfig α) (ctx : SolverContext)
    (positions velocities restPositions gradient : List α)
    (vertexIndex : ℕ) : Vec3 α :=
  let off := vertexIndex * 3
  let nv := integratedVelocity cfg ctx positions velocities restPositions gradient vertexIndex
  ⟨positions.getD off 0 + nv.x * cfg.stepSize,
   positions.getD (off + 1) 0 + nv.y * cfg.stepSize,
   positions.getD (off + 2) 0 + nv.z * cfg.stepSize⟩

/-- The body of the free-vertex integration loop of `runRelaxationStep`
(solver.ts lines 96-146): boundary vertices are skipped; for free vertices
the new position and velocity are written into the double-buffered scratch
pair `acc`. -/
def integrateVertex (cfg : SolverConfig α) (ctx : SolverContext)
    (positions velocities restPositions gradient : List α)
    (acc : List α × List α) (vertexIndex : ℕ) : List α × List α :=
  if ctx.boundaryMask.getD vertexIndex 0 = 1 then acc
  else
    let off := vertexIndex * 3
    let np := integratedPosition cfg ctx positions velocities restPositions gradient vertexIndex
    let nv := integratedVelocity cfg ctx positions velocities restPositions gradient vertexIndex
    (((acc.1.set off np.x).set (off + 1) np.y).set (off + 2) np.z,
     ((acc.2.set off nv.x).set (off + 1) nv.y).set (off + 2) nv.z)

/-- One inner iteration ("substep") of `runRelaxationStep` (solver.ts lines
87-151): boundary projection, area-gradient accumulation, double-buffered
free-vertex integration over the snapshot taken by
`scratchPositions.set(positions)` / `scratchVelocities.set(velocities)`,
then boundary re-projection. -/
def substep (ops : RealOps α) (indices : List ℕ)
    (constraints : List (BoundaryConstraint α)) (restPositions : List α)
    (cfg : SolverConfig α) (ctx : SolverContext)
    (sampler : BoundaryConstraint α → Option (Vec3 α))
    (pv : List α × List α) : List α × List α :=
  let pv1 := projectBoundaries constraints sampler pv
  let gradient := accumulateAreaGradient ops pv1.1 indices (List.replicate pv1.1.length 0)
  let vertexCount := pv1.1.length / 3
  let integrated := (List.range vertexCount).foldl
      (integrateVertex cfg ctx pv1.1 pv1.2 restPositions gradient) (pv1.1, pv1.2)
  projectBoundaries constraints sampler integrated

/-- `runRelaxationStep` (solver.ts lines 74-158), returning the final
(positions, velocities) pair together with the returned area.  The source
returns `NaN` when the caller opts out of the area computation; `NaN` has no
field counterpart, so the opt-out sentinel is modelled as `0` (no claim
refers to it). -/
def runRelaxationStep (ops : RealOps α) (fs : FilmState α) (ctx : SolverContext)
    (sampler : BoundaryConstraint α → Option (Vec3 α))
    (computeArea : Bool) : (List α × List α) × α :=
  if fs.indices = [] then ((fs.positions, fs.velocities), 0)
  else
    let pv := (List.range fs.solverConfig.substeps).foldl
      (fun pv _ => substep ops fs.indices fs.boundaryConstraints fs.restPositions
        fs.solverConfig ctx sampler pv)
      (fs.positions, fs.velocities)
    (pv, if computeArea then computeSurfaceArea ops pv.1 fs.indices else 0)

/-- `resetFilmState` (solver.ts lines 160-163): positions are restored from
the rest snapshot and all velocities are zeroed. -/
def resetFilmState (fs : FilmState α) : FilmState α :=
  { fs with
    positions := fs.restPositions
    velocities := fs.velocities.map fun _ => 0 }

end SoapFilm

namespace SoapFilm

variable {α : Type} [LinearOrderedField α] [FloorRing α]

theorem getD_set_self {β : Type} {l : List β} {i : ℕ} (h : i < l.length) (a d : β) :
    (l.set i a).getD i d = a := by
  simp [List.getD_eq_getD_get?, List.get?_eq_getElem?, List.getElem?_set_eq_of_lt, h]

theorem getD_set_ne {β : Type} {l : List β} {i j : ℕ} (h : i ≠ j) (a d : β) :
    (l.set i a).getD j d = l.getD j d := by
  simp [List.getD_eq_getD_get?, List.get?_eq_getElem?, List.getElem?_set_ne, h]

theorem applyConstraint_length (sampler : BoundaryConstraint α → Option (Vec3 α))
    (pv : List α × List α) (c : BoundaryConstraint α) :
    (applyConstraint sampler pv c).1.length = pv.1.length ∧
    (applyConstraint sampler pv c).2.length = pv.2.length := by
  unfold applyConstraint
  cases sampler c <;> simp

theorem projectBoundaries_length (sampler : BoundaryConstraint α → Option (Vec3 α)) :
    ∀ (constraints : List (BoundaryConstraint α)) (pv : List α × List α),
      (projectBoundaries constraints sampler pv).1.length = pv.1.length ∧
      (projectBoundaries constraints sampler pv).2.length = pv.2.length
  | [], pv => ⟨rfl, rfl⟩
  | c :: rest, pv => by
    have h1 := applyConstraint_length sampler pv c
    have h2 := projectBoundaries_length sampler rest (applyConstraint sampler pv c)
    simpa [projectBoundaries, List.foldl_cons] using ⟨h2.1.trans h1.1, h2.2.trans h1.2⟩

/-- If, for a given vertex, every constraint either samples to `none` or
targets a different vertex, a projection pass leaves that vertex's position
and velocity entries untouched. -/
theorem projectBoundaries_untouched (sampler : BoundaryConstraint α → Option (Vec3 α))
    (v : ℕ) :
    ∀ (constraints : List (BoundaryConstraint α)) (pv : List α × List α),
      (∀ c ∈ constraints, sampler c = none ∨ c.vertexIndex ≠ v) →
      ∀ k, k < 3 →
        (projectBoundaries constraints sampler pv).1.getD (v * 3 + k) 0 =
          pv.1.getD (v * 3 + k) 0 ∧
        (projectBoundaries constraints sampler pv).2.getD (v * 3 + k) 0 =
          pv.2.getD (v * 3 + k) 0
  | [], pv, h, k, hk => ⟨rfl, rfl⟩
  | c :: rest, pv, h, k, hk => by
    have hc := h c (by simp)
    have hrest : ∀ c' ∈ rest, sampler c' = none ∨ c'.vertexIndex ≠ v := fun c' hc' =>
      h c' (by simp [hc'])
    have ih := projectBoundaries_untouched sampler v rest (applyConstraint sampler pv c)
      hrest k hk
    rcases hc with hnone | hne
    · simpa [projectBoundaries, List.foldl_cons, applyConstraint, hnone] using ih
    · have hoff : ∀ k', k' < 3 → c.vertexIndex * 3 + k' ≠ v * 3 + k := by
        intro k' hk'; omega
    
      have happ1 : (applyConstraint sampler pv c).1.getD (v * 3 + k) 0 =
          pv.1.getD (v * 3 + k) 0 := by
        unfold applyConstraint
        cases hs : sampler c with
        | none => rfl
        | some pt =>
          simp only
          rw [getD_set_ne (by have := hoff 2 (by norm_num); omega),
            getD_set_ne (by have := hoff 1 (by norm_num); omega),
            getD_set_ne (by have := hoff 0 (by norm_num); omega)]
      have happ2 : (applyConstraint sampler pv c).2.getD (v * 3 + k) 0 =
          pv.2.getD (v * 3 + k) 0 := by
        unfold applyConstraint
        cases hs : sampler c with
        | none => rfl
        | some pt =>
          simp only
          rw [getD_set_ne (by have := hoff 2 (by norm_num); omega),
            getD_set_ne (by have := hoff 1 (by norm_num); omega),
            getD_set_ne (by have := hoff 0 (by norm_num); omega)]
      refine ⟨?_, ?_⟩
      · rw [show projectBoundaries (c :: rest) sampler pv =
            projectBoundaries rest sampler (applyConstraint sampler pv c) from rfl]
        rw [ih.1, happ1]
      · rw [show projectBoundaries (c :: rest) sampler pv =
            projectBoundaries rest sampler (applyConstraint sampler pv c) from rfl]
        rw [ih.2, happ2]

/-- With pairwise-distinct constraint vertex indices, a projection pass
writes each sampled point and zero velocity at its constraint's vertex. -/
theorem projectBoundaries_target (sampler : BoundaryConstraint α → Option (Vec3 α)) :
    ∀ (constraints : List (BoundaryConstraint α)) (pv : List α × List α),
      constraints.Pairwise (fun c c' => c.vertexIndex ≠ c'.vertexIndex) →
      ∀ c ∈ constraints, ∀ pt, sampler c = some pt →
        c.vertexIndex * 3 + 2 < pv.1.length →
        c.vertexIndex * 3 + 2 < pv.2.length →
        ((projectBoundaries constraints sampler pv).1.getD (c.vertexIndex * 3) 0 = pt.x ∧
         (projectBoundaries constraints sampler pv).1.getD (c.vertexIndex * 3 + 1) 0 = pt.y ∧
         (projectBoundaries constraints sampler pv).1.getD (c.vertexIndex * 3 + 2) 0 = pt.z) ∧
        ((projectBoundaries constraints sampler pv).2.getD (c.vertexIndex * 3) 0 = 0 ∧
         (projectBoundaries constraints sampler pv).2.getD (c.vertexIndex * 3 + 1) 0 = 0 ∧
         (projectBoundaries constraints sampler pv).2.getD (c.vertexIndex * 3 + 2) 0 = 0)
  | [], pv, hdist, c, hc, pt, hpt, h1, h2 => by simp at hc
  | c0 :: rest, pv, hdist, c, hc, pt, hpt, h1, h2 => by
    have hstep : projectBoundaries (c0 :: rest) sampler pv =
        projectBoundaries rest sampler (applyConstraint sampler pv c0) := rfl
    rcases List.mem_cons.mp hc with rfl | hmem
    · -- the head constraint writes; the tail never touches this vertex again
      have hrest : ∀ c' ∈ rest, sampler c' = none ∨ c'.vertexIndex ≠ c.vertexIndex :=
        fun c' hc' => Or.inr fun h => (List.pairwise_cons.mp hdist).1 c' hc' h.symm
      have hlen := applyConstraint_length sampler pv c
      have happ : (applyConstraint sampler pv c).1.getD (c.vertexIndex * 3) 0 = pt.x ∧
          (applyConstraint sampler pv c).1.getD (c.vertexIndex * 3 + 1) 0 = pt.y ∧
          (applyConstraint sampler pv c).1.getD (c.vertexIndex * 3 + 2) 0 = pt.z ∧
          (applyConstraint sampler pv c).2.getD (c.vertexIndex * 3) 0 = 0 ∧
          (applyConstraint sampler pv c).2.getD (c.vertexIndex * 3 + 1) 0 = 0 ∧
          (applyConstraint sampler pv c).2.getD (c.vertexIndex * 3 + 2) 0 = 0 := by
        unfold applyConstraint
        rw [hpt]
        simp only
        refine ⟨?_, ?_, ?_, ?_, ?_, ?_⟩
        · rw [getD_set_ne (by omega), getD_set_ne (by omega),
            getD_set_self (by omega) _ _]
        · rw [getD_set_ne (by omega),
            getD_set_self (by simp; omega) _ _]
        · rw [getD_set_self (by simp; omega) _ _]
        · rw [getD_set_ne (by omega), getD_set_ne (by omega),
            getD_set_self (by omega) _ _]
        · rw [getD_set_ne (by omega),
            getD_set_self (by simp; omega) _ _]
        · rw [getD_set_self (by simp; omega) _ _]
      have huntouched := fun k hk =>
        projectBoundaries_untouched sampler c.vertexIndex rest
          (applyConstraint sampler pv c) hrest k hk
      rw [hstep]
      refine ⟨⟨?_, ?_, ?_⟩, ?_, ?_, ?_⟩
      · rw [show c.vertexIndex * 3 = c.vertexIndex * 3 + 0 by omega,
          (huntouched 0 (by norm_num)).1]
        simpa using happ.1
      · rw [(huntouched 1 (by norm_num)).1]; exact happ.2.1
      · rw [(huntouched 2 (by norm_num)).1]; exact happ.2.2.1
      · rw [show c.vertexIndex * 3 = c.vertexIndex * 3 + 0 by omega,
          (huntouched 0 (by norm_num)).2]
        simpa using happ.2.2.2.1
      · rw [(huntouched 1 (by norm_num)).2]; exact happ.2.2.2.2.1
      · rw [(huntouched 2 (by norm_num)).2]; exact happ.2.2.2.2.2
    · have hlen := applyConstraint_length sampler pv c0
      have := projectBoundaries_target sampler rest (applyConstraint sampler pv c0)
        (List.pairwise_cons.mp hdist).2 c hmem pt hpt (by omega) (by omega)
      rw [hstep]
      exact this

end SoapFilm

namespace SoapFilm

variable {α : Type} [LinearOrderedField α] [FloorRing α]

theorem integrateVertex_length (cfg : SolverConfig α) (ctx : SolverContext)
    (p v rest g : List α) (acc : List α × List α) (i : ℕ) :
    (integrateVertex cfg ctx p v rest g acc i).1.length = acc.1.length ∧
    (integrateVertex cfg ctx p v rest g acc i).2.length = acc.2.length := by
  unfold integrateVertex
  split <;> simp

theorem integrateFold_length (cfg : SolverConfig α) (ctx : SolverContext)
    (p v rest g : List α) :
    ∀ (l : List ℕ) (acc : List α × List α),
      ((l.foldl (integrateVertex cfg ctx p v rest g) acc).1.length = acc.1.length ∧
       (l.foldl (integrateVertex cfg ctx p v rest g) acc).2.length = acc.2.length)
  | [], acc => ⟨rfl, rfl⟩
  | i :: restl, acc => by
    have h1 := integrateVertex_length cfg ctx p v rest g acc i
    have h2 := integrateFold_length cfg ctx p v rest g restl
      (integrateVertex cfg ctx p v rest g acc i)
    exact ⟨h2.1.trans h1.1, h2.2.trans h1.2⟩

/-- Vertices that are masked as boundary, or not visited by the loop, keep
their scratch-buffer entries. -/
theorem integrateFold_untouched (cfg : SolverConfig α) (ctx : SolverContext)
    (p v rest g : List α) :
    ∀ (l : List ℕ) (acc : List α × List α) (j : ℕ),
      (∀ i ∈ l, ctx.boundaryMask.getD i 0 = 1 ∨ i ≠ j) →
      ∀ k, k < 3 →
        ((l.foldl (integrateVertex cfg ctx p v rest g) acc).1.getD (j * 3 + k) 0 =
            acc.1.getD (j * 3 + k) 0 ∧
         (l.foldl (integrateVertex cfg ctx p v rest g) acc).2.getD (j * 3 + k) 0 =
            acc.2.getD (j * 3 + k) 0)
  | [], acc, j, h, k, hk => ⟨rfl, rfl⟩
  | i :: restl, acc, j, h, k, hk => by
    have hi := h i (by simp)
    have hrest : ∀ i' ∈ restl, ctx.boundaryMask.getD i' 0 = 1 ∨ i' ≠ j := fun i' hi' =>
      h i' (by simp [hi'])
    have ih := integrateFold_untouched cfg ctx p v rest g restl
      (integrateVertex cfg ctx p v rest g acc i) j hrest k hk
    have hstep : (i :: restl).foldl (integrateVertex cfg ctx p v rest g) acc =
        restl.foldl (integrateVertex cfg ctx p v rest g)
          (integrateVertex cfg ctx p v rest g acc i) := rfl
    have happ : (integrateVertex cfg ctx p v rest g acc i).1.getD (j * 3 + k) 0 =
        acc.1.getD (j * 3 + k) 0 ∧
        (integrateVertex cfg ctx p v rest g acc i).2.getD (j * 3 + k) 0 =
        acc.2.getD (j * 3 + k) 0 := by
      unfold integrateVertex
      by_cases hmask : ctx.boundaryMask.getD i 0 = 1
      · rw [if_pos hmask]; exact ⟨rfl, rfl⟩
      · have hne : i ≠ j := by
          rcases hi with hm | hne
          · exact absurd hm hmask
          · exact hne
        rw [if_neg hmask]
        simp only
        constructor
        · rw [getD_set_ne (by omega), getD_set_ne (by omega), getD_set_ne (by omega)]
        · rw [getD_set_ne (by omega), getD_set_ne (by omega), getD_set_ne (by omega)]
    rw [hstep]
    exact ⟨ih.1.trans happ.1, ih.2.trans happ.2⟩

end SoapFilm

namespace SoapFilm

variable {α : Type} [LinearOrderedField α] [FloorRing α]

/-- No sequential leakage: for any free vertex visited by the integration
loop, the scratch buffers end up holding exactly the snapshot-based
integrated position and velocity of that vertex. -/
theorem integrateFold_range_written (cfg : SolverConfig α) (ctx : SolverContext)
    (p v rest g : List α) (j : ℕ) (hfree : ctx.boundaryMask.getD j 0 ≠ 1)
    (hp : j * 3 + 2 < p.length) (hv : j * 3 + 2 < v.length) :
    ∀ m, j < m →
      (((List.range m).foldl (integrateVertex cfg ctx p v rest g) (p, v)).1.getD (j * 3) 0 =
          (integratedPosition cfg ctx p v rest g j).x ∧
       ((List.range m).foldl (integrateVertex cfg ctx p v rest g) (p, v)).1.getD (j * 3 + 1) 0 =
          (integratedPosition cfg ctx p v rest g j).y ∧
       ((List.range m).foldl (integrateVertex cfg ctx p v rest g) (p, v)).1.getD (j * 3 + 2) 0 =
          (integratedPosition cfg ctx p v rest g j).z) ∧
      (((List.range m).foldl (integrateVertex cfg ctx p v rest g) (p, v)).2.getD (j * 3) 0 =
          (integratedVelocity cfg ctx p v rest g j).x ∧
       ((List.range m).foldl (integrateVertex cfg ctx p v rest g) (p, v)).2.getD (j * 3 + 1) 0 =
          (integratedVelocity cfg ctx p v rest g j).y ∧
       ((List.range m).foldl (integrateVertex cfg ctx p v rest g) (p, v)).2.getD (j * 3 + 2) 0 =
          (integratedVelocity cfg ctx p v rest g j).z) := by
  intro m
  induction m with
  | zero => intro h; omega
  | succ m ih =>
    intro hjm
    have hsplit : (List.range (m + 1)).foldl (integrateVertex cfg ctx p v rest g) (p, v) =
        [m].foldl (integrateVertex cfg ctx p v rest g)
          ((List.range m).foldl (integrateVertex cfg ctx p v rest g) (p, v)) := by
      rw [List.range_succ, List.foldl_append]
    by_cases hcase : j < m
    · obtain ⟨hpos, hvel⟩ := ih hcase
      have hunt := integrateFold_untouched cfg ctx p v rest g [m]
        ((List.range m).foldl (integrateVertex cfg ctx p v rest g) (p, v)) j
        (fun i hi => Or.inr (by simp at hi; omega))
      rw [hsplit]
      refine ⟨⟨?_, ?_, ?_⟩, ?_, ?_, ?_⟩
      · have := (hunt 0 (by norm_num)).1
        simpa using this.trans (by simpa using hpos.1)
      · exact ((hunt 1 (by norm_num)).1).trans hpos.2.1
      · exact ((hunt 2 (by norm_num)).1).trans hpos.2.2
      · have := (hunt 0 (by norm_num)).2
        simpa using this.trans (by simpa using hvel.1)
      · exact ((hunt 1 (by norm_num)).2).trans hvel.2.1
      · exact ((hunt 2 (by norm_num)).2).trans hvel.2.2
    · have hj : j = m := by omega
      subst hj
      set acc := (List.range j).foldl (integrateVertex cfg ctx p v rest g) (p, v) with hacc
      have hlen := integrateFold_length cfg ctx p v rest g (List.range j) (p, v)
      have hlen1 : acc.1.length = p.length := hlen.1
      have hlen2 : acc.2.length = v.length := hlen.2
      rw [hsplit]
      have hfold1 : [j].foldl (integrateVertex cfg ctx p v rest g) acc =
          integrateVertex cfg ctx p v rest g acc j := rfl
      rw [hfold1]
      unfold integrateVertex
      rw [if_neg hfree]
      simp only
      refine ⟨⟨?_, ?_, ?_⟩, ?_, ?_, ?_⟩
      · rw [getD_set_ne (by omega), getD_set_ne (by omega),
          getD_set_self (by omega) _ _]
      · rw [getD_set_ne (by omega),
          getD_set_self (by simp only [List.length_set]; omega) _ _]
      · rw [getD_set_self (by simp only [List.length_set]; omega) _ _]
      · rw [getD_set_ne (by omega), getD_set_ne (by omega),
          getD_set_self (by omega) _ _]
      · rw [getD_set_ne (by omega),
          getD_set_self (by simp only [List.length_set]; omega) _ _]
      · rw [getD_set_self (by simp only [List.length_set]; omega) _ _]

end SoapFilm

namespace SoapFilm

variable {α : Type} [LinearOrderedField α] [FloorRing α]

theorem maskFold_length (cs : List (BoundaryConstraint α)) :
    ∀ m : List ℕ, (cs.foldl (fun mask c => mask.set c.vertexIndex 1) m).length = m.length := by
  induction cs with
  | nil => intro m; rfl
  | cons c rest ih =>
    intro m
    simpa [List.foldl_cons] using (ih (m.set c.vertexIndex 1)).trans (by simp)

theorem maskFold_stays_one (cs : List (BoundaryConstraint α)) :
    ∀ (m : List ℕ) (j : ℕ), m.getD j 0 = 1 →
      (cs.foldl (fun mask c => mask.set c.vertexIndex 1) m).getD j 0 = 1 := by
  induction cs with
  | nil => intro m j h; exact h
  | cons c rest ih =>
    intro m j h
    refine ih (m.set c.vertexIndex 1) j ?_
    by_cases hc : c.vertexIndex = j
    · subst hc
      by_cases hlen : c.vertexIndex < m.length
      · rw [getD_set_self hlen]
      · rw [List.set_eq_of_length_le (by omega)]; exact h
    · rw [getD_set_ne hc]; exact h

theorem maskFold_sets_one (cs : List (BoundaryConstraint α)) :
    ∀ (m : List ℕ) (c : BoundaryConstraint α), c ∈ cs → c.vertexIndex < m.length →
      (cs.foldl (fun mask c => mask.set c.vertexIndex 1) m).getD c.vertexIndex 0 = 1 := by
  induction cs with
  | nil => intro m c hc; simp at hc
  | cons c0 rest ih =>
    intro m c hc hlen
    rcases List.mem_cons.mp hc with rfl | hmem
    · exact maskFold_stays_one rest (m.set c.vertexIndex 1) c.vertexIndex
        (getD_set_self hlen _ _)
    · exact ih (m.set c0.vertexIndex 1) c hmem (by simpa using hlen)

/-- A vertex whose boundary-mask entry is not `1` (and which is in range) is
not targeted by any boundary constraint. -/
theorem boundaryMask_free_not_target (fs : FilmState α) (j : ℕ)
    (hj : j < fs.positions.length / 3)
    (hfree : (createSolverContext fs).boundaryMask.getD j 0 ≠ 1) :
    ∀ c ∈ fs.boundaryConstraints, c.vertexIndex ≠ j := by
  intro c hc hcj
  apply hfree
  subst hcj
  exact maskFold_sets_one fs.boundaryConstraints
    (List.replicate (fs.positions.length / 3) 0) c hc (by simpa using hj)

/-- The C1 claim's laplacian term, written as the claim states it: the mean
of the topological-neighbor positions minus the vertex's own position. -/
def claimLaplacian (positions : List α) (nbrs : List ℕ) (j k : ℕ) : α :=
  (nbrs.map fun n => positions.getD (n * 3 + k) 0).sum / (nbrs.length : α)
    - positions.getD (j * 3 + k) 0

/-- The C1 claim's acceleration:
`(−areaGradient + laplacianWeight·laplacian)·relaxationStrength +
 shapeRetention·(rest − current)`. -/
def claimAcceleration (cfg : SolverConfig α) (positions rest gradient : List α)
    (nbrs : List ℕ) (j k : ℕ) : α :=
  (-(gradient.getD (j * 3 + k) 0) + cfg.laplacianWeight * claimLaplacian positions nbrs j k) *
      cfg.relaxationStrength +
    cfg.shapeRetention * (rest.getD (j * 3 + k) 0 - positions.getD (j * 3 + k) 0)

/-- The C1 claim's damped velocity update:
`velocity·damping + acceleration·stepSize`. -/
def claimNewVelocity (cfg : SolverConfig α) (positions velocities rest gradient : List α)
    (nbrs : List ℕ) (j k : ℕ) : α :=
  velocities.getD (j * 3 + k) 0 * cfg.damping +
    claimAcceleration cfg positions rest gradient nbrs j k * cfg.stepSize

/-- Under the claim's preconditions (non-negative relaxation strength and
shape retention, and a vertex with at least one topological neighbor), the
code's integrated velocity equals the claim's formula, componentwise. -/
theorem integratedVelocity_eq_claim (cfg : SolverConfig α) (ctx : SolverContext)
    (p v rest g : List α) (j : ℕ)
    (hrs : 0 ≤ cfg.relaxationStrength) (hsr : 0 ≤ cfg.shapeRetention)
    (hnb : ctx.neighbors.getD j [] ≠ []) :
    (integratedVelocity cfg ctx p v rest g j).x =
        claimNewVelocity cfg p v rest g (ctx.neighbors.getD j []) j 0 ∧
    (integratedVelocity cfg ctx p v rest g j).y =
        claimNewVelocity cfg p v rest g (ctx.neighbors.getD j []) j 1 ∧
    (integratedVelocity cfg ctx p v rest g j).z =
        claimNewVelocity cfg p v rest g (ctx.neighbors.getD j []) j 2 := by
  have hpos : (ctx.neighbors.getD j []).length > 0 := List.length_pos.mpr hnb
  have hmax1 : max 0 cfg.relaxationStrength = cfg.relaxationStrength := max_eq_right hrs
  have hmax2 : max 0 cfg.shapeRetention = cfg.shapeRetention := max_eq_right hsr
  have hsum : ∀ k : ℕ,
      ((ctx.neighbors.getD j []).foldl (fun s n => s + p.getD (n * 3 + k) 0) 0) =
        ((ctx.neighbors.getD j []).map fun n => p.getD (n * 3 + k) 0).sum := by
    intro k
    rw [List.sum_eq_foldl, List.foldl_map]
  have hsum0 :
      ((ctx.neighbors.getD j []).foldl (fun s n => s + p.getD (n * 3) 0) 0) =
        ((ctx.neighbors.getD j []).map fun n => p.getD (n * 3 + 0) 0).sum := by
    rw [← hsum 0]
    simp
  simp only [integratedVelocity, claimNewVelocity, claimAcceleration, claimLaplacian,
    if_pos hpos, hmax1, hmax2, hsum0, hsum 1, hsum 2]
  refine ⟨?_, ?_, ?_⟩ <;>
    · try simp only [Nat.add_zero]
      ring

end SoapFilm

namespace SoapFilm

variable {α : Type} [LinearOrderedField α] [FloorRing α]

/-- C1: `runRelaxationStep` iterates `substep`, and inside every substep each
free (non-boundary) vertex integrates from the pre-substep double-buffered
snapshot (positions after that substep's first boundary projection, the
velocities, the associated area gradient and the rest positions): the new
velocity is `velocity·damping + acceleration·stepSize` with
`acceleration = (−areaGradient + laplacianWeight·laplacian)·relaxationStrength
 + shapeRetention·(rest − current)` and `laplacian` the mean of the
topological-neighbor positions minus the vertex's own position; the new
position is `position + newVelocity·stepSize`.  No vertex reads another
vertex's same-substep update: the right-hand sides read only the snapshot. -/
theorem runRelaxationStep_free_vertex_integration
    (ops : RealOps α) (fs : FilmState α)
    (sampler : BoundaryConstraint α → Option (Vec3 α)) (pv : List α × List α)
    (hlenp : pv.1.length = fs.positions.length)
    (hlenv : pv.2.length = pv.1.length)
    (hrs : 0 ≤ fs.solverConfig.relaxationStrength)
    (hsr : 0 ≤ fs.solverConfig.shapeRetention)
    (j : ℕ) (hj : j < fs.positions.length / 3)
    (hfree : (createSolverContext fs).boundaryMask.getD j 0 ≠ 1)
    (hnb : (createSolverContext fs).neighbors.getD j [] ≠ []) :
    (fs.indices ≠ [] →
      (runRelaxationStep ops fs (createSolverContext fs) sampler true).1 =
        (List.range fs.solverConfig.substeps).foldl
          (fun s _ => substep ops fs.indices fs.boundaryConstraints fs.restPositions
            fs.solverConfig (createSolverContext fs) sampler s)
          (fs.positions, fs.velocities)) ∧
    ∀ pv1, pv1 = projectBoundaries fs.boundaryConstraints sampler pv →
    ∀ g, g = accumulateAreaGradient ops pv1.1 fs.indices (List.replicate pv1.1.length 0) →
    ∀ nbrs, nbrs = (createSolverContext fs).neighbors.getD j [] →
    ∀ res, res = substep ops fs.indices fs.boundaryConstraints fs.restPositions
        fs.solverConfig (createSolverContext fs) sampler pv →
      (res.2.getD (j * 3) 0 =
          claimNewVelocity fs.solverConfig pv1.1 pv1.2 fs.restPositions g nbrs j 0 ∧
       res.2.getD (j * 3 + 1) 0 =
          claimNewVelocity fs.solverConfig pv1.1 pv1.2 fs.restPositions g nbrs j 1 ∧
       res.2.getD (j * 3 + 2) 0 =
          claimNewVelocity fs.solverConfig pv1.1 pv1.2 fs.restPositions g nbrs j 2) ∧
      (res.1.getD (j * 3) 0 = pv1.1.getD (j * 3) 0 +
          claimNewVelocity fs.solverConfig pv1.1 pv1.2 fs.restPositions g nbrs j 0 *
            fs.solverConfig.stepSize ∧
       res.1.getD (j * 3 + 1) 0 = pv1.1.getD (j * 3 + 1) 0 +
          claimNewVelocity fs.solverConfig pv1.1 pv1.2 fs.restPositions g nbrs j 1 *
            fs.solverConfig.stepSize ∧
       res.1.getD (j * 3 + 2) 0 = pv1.1.getD (j * 3 + 2) 0 +
          claimNewVelocity fs.solverConfig pv1.1 pv1.2 fs.restPositions g nbrs j 2 *
            fs.solverConfig.stepSize) := by
  constructor
  · intro hne
    rw [runRelaxationStep, if_neg hne]
  · intro pv1 hpv1 g hg nbrs hnbrs res hres
    subst hpv1; subst hg; subst hnbrs; subst hres
    have hmask := boundaryMask_free_not_target fs j hj hfree
    have hplen := (projectBoundaries_length sampler fs.boundaryConstraints pv).1
    have hvlen2 := (projectBoundaries_length sampler fs.boundaryConstraints pv).2
    have hp : j * 3 + 2 < (projectBoundaries fs.boundaryConstraints sampler pv).1.length := by
      rw [hplen, hlenp]; omega
    have hv : j * 3 + 2 < (projectBoundaries fs.boundaryConstraints sampler pv).2.length := by
      rw [hvlen2, hlenv, hlenp]; omega
    have hjm : j < (projectBoundaries fs.boundaryConstraints sampler pv).1.length / 3 := by
      rw [hplen, hlenp]; exact hj
    have hw := integrateFold_range_written fs.solverConfig (createSolverContext fs)
      (projectBoundaries fs.boundaryConstraints sampler pv).1
      (projectBoundaries fs.boundaryConstraints sampler pv).2
      fs.restPositions
      (accumulateAreaGradient ops (projectBoundaries fs.boundaryConstraints sampler pv).1
        fs.indices
        (List.replicate (projectBoundaries fs.boundaryConstraints sampler pv).1.length 0))
      j hfree hp hv _ hjm
    have hclaim := integratedVelocity_eq_claim fs.solverConfig (createSolverContext fs)
      (projectBoundaries fs.boundaryConstraints sampler pv).1
      (projectBoundaries fs.boundaryConstraints sampler pv).2
      fs.restPositions
      (accumulateAreaGradient ops (projectBoundaries fs.boundaryConstraints sampler pv).1
        fs.indices
        (List.replicate (projectBoundaries fs.boundaryConstraints sampler pv).1.length 0))
      j hrs hsr hnb
    have hres2 : substep ops fs.indices fs.boundaryConstraints fs.restPositions
        fs.solverConfig (createSolverContext fs) sampler pv =
        projectBoundaries fs.boundaryConstraints sampler
          ((List.range ((projectBoundaries fs.boundaryConstraints sampler pv).1.length / 3)).foldl
            (integrateVertex fs.solverConfig (createSolverContext fs)
              (projectBoundaries fs.boundaryConstraints sampler pv).1
              (projectBoundaries fs.boundaryConstraints sampler pv).2
              fs.restPositions
              (accumulateAreaGradient ops
                (projectBoundaries fs.boundaryConstraints sampler pv).1 fs.indices
                (List.replicate (projectBoundaries fs.boundaryConstraints sampler pv).1.length 0)))
            ((projectBoundaries fs.boundaryConstraints sampler pv).1,
             (projectBoundaries fs.boundaryConstraints sampler pv).2)) := rfl
    have huntouched := projectBoundaries_untouched sampler j fs.boundaryConstraints
      ((List.range ((projectBoundaries fs.boundaryConstraints sampler pv).1.length / 3)).foldl
        (integrateVertex fs.solverConfig (createSolverContext fs)
          (projectBoundaries fs.boundaryConstraints sampler pv).1
          (projectBoundaries fs.boundaryConstraints sampler pv).2
          fs.restPositions
          (accumulateAreaGradient ops
            (projectBoundaries fs.boundaryConstraints sampler pv).1 fs.indices
            (List.replicate (projectBoundaries fs.boundaryConstraints sampler pv).1.length 0)))
        ((projectBoundaries fs.boundaryConstraints sampler pv).1,
         (projectBoundaries fs.boundaryConstraints sampler pv).2))
      (fun c hc => Or.inr (hmask c hc))
    rw [hres2]
    constructor
    · refine ⟨?_, ?_, ?_⟩
      · have h0 := (huntouched 0 (by norm_num)).2
        rw [show j * 3 + 0 = j * 3 by omega] at h0
        rw [h0, hw.2.1, hclaim.1]
      · rw [(huntouched 1 (by norm_num)).2, hw.2.2.1, hclaim.2.1]
      · rw [(huntouched 2 (by norm_num)).2, hw.2.2.2, hclaim.2.2]
    · refine ⟨?_, ?_, ?_⟩
      · have h0 := (huntouched 0 (by norm_num)).1
        rw [show j * 3 + 0 = j * 3 by omega] at h0
        rw [h0, hw.1.1]
        simp only [integratedPosition]
        rw [hclaim.1]
      · rw [(huntouched 1 (by norm_num)).1, hw.1.2.1]
        simp only [integratedPosition]
        rw [hclaim.2.1]
      · rw [(huntouched 2 (by norm_num)).1, hw.1.2.2]
        simp only [integratedPosition]
        rw [hclaim.2.2]

end SoapFilm

namespace SoapFilm

variable {α : Type} [LinearOrderedField α] [FloorRing α]

theorem substep_length (ops : RealOps α) (indices : List ℕ)
    (constraints : List (BoundaryConstraint α)) (rest : List α)
    (cfg : SolverConfig α) (ctx : SolverContext)
    (sampler : BoundaryConstraint α → Option (Vec3 α)) (pv : List α × List α) :
    (substep ops indices constraints rest cfg ctx sampler pv).1.length = pv.1.length ∧
    (substep ops indices constraints rest cfg ctx sampler pv).2.length = pv.2.length := by
  have h1 := projectBoundaries_length sampler constraints pv
  have h2 := integrateFold_length cfg ctx
    (projectBoundaries constraints sampler pv).1
    (projectBoundaries constraints sampler pv).2
    rest
    (accumulateAreaGradient ops (projectBoundaries constraints sampler pv).1 indices
      (List.replicate (projectBoundaries constraints sampler pv).1.length 0))
    (List.range ((projectBoundaries constraints sampler pv).1.length / 3))
    ((projectBoundaries constraints sampler pv).1, (projectBoundaries constraints sampler pv).2)
  have h3 := projectBoundaries_length sampler constraints
    ((List.range ((projectBoundaries constraints sampler pv).1.length / 3)).foldl
      (integrateVertex cfg ctx
        (projectBoundaries constraints sampler pv).1
        (projectBoundaries constraints sampler pv).2
        rest
        (accumulateAreaGradient ops (projectBoundaries constraints sampler pv).1 indices
          (List.replicate (projectBoundaries constraints sampler pv).1.length 0)))
      ((projectBoundaries constraints sampler pv).1,
       (projectBoundaries constraints sampler pv).2))
  exact ⟨h3.1.trans (h2.1.trans h1.1), h3.2.trans (h2.2.trans h1.2)⟩

theorem substepFold_length (ops : RealOps α) (indices : List ℕ)
    (constraints : List (BoundaryConstraint α)) (rest : List α)
    (cfg : SolverConfig α) (ctx : SolverContext)
    (sampler : BoundaryConstraint α → Option (Vec3 α)) :
    ∀ (l : List ℕ) (pv : List α × List α),
      ((l.foldl (fun s _ => substep ops indices constraints rest cfg ctx sampler s) pv).1.length
          = pv.1.length ∧
       (l.foldl (fun s _ => substep ops indices constraints rest cfg ctx sampler s) pv).2.length
          = pv.2.length)
  | [], pv => ⟨rfl, rfl⟩
  | i :: restl, pv => by
    have h1 := substep_length ops indices constraints rest cfg ctx sampler pv
    have h2 := substepFold_length ops indices constraints rest cfg ctx sampler restl
      (substep ops indices constraints rest cfg ctx sampler pv)
    exact ⟨h2.1.trans h1.1, h2.2.trans h1.2⟩

/-- C2: in every boundary-projection pass, a constraint whose sampler returns
a point has its vertex overwritten with that point and its velocity zeroed,
while a constraint whose sampler returns `none` (frame removed) leaves its
vertex untouched and the pass does not fail; and because projection is the
last operation of every substep, `runRelaxationStep` (run with at least one
substep on a non-empty triangle list) returns with every sampled constraint
vertex holding exactly its sampled point with zero velocity. -/
theorem runRelaxationStep_boundary_projection
    (ops : RealOps α) (fs : FilmState α)
    (sampler : BoundaryConstraint α → Option (Vec3 α)) (b : Bool)
    (hdist : fs.boundaryConstraints.Pairwise fun c c' => c.vertexIndex ≠ c'.vertexIndex)
    (hsub : 1 ≤ fs.solverConfig.substeps) (hne : fs.indices ≠ []) :
    (∀ pv : List α × List α, ∀ c ∈ fs.boundaryConstraints, ∀ pt, sampler c = some pt →
      c.vertexIndex * 3 + 2 < pv.1.length → c.vertexIndex * 3 + 2 < pv.2.length →
      ((projectBoundaries fs.boundaryConstraints sampler pv).1.getD (c.vertexIndex * 3) 0 = pt.x ∧
       (projectBoundaries fs.boundaryConstraints sampler pv).1.getD (c.vertexIndex * 3 + 1) 0 = pt.y ∧
       (projectBoundaries fs.boundaryConstraints sampler pv).1.getD (c.vertexIndex * 3 + 2) 0 = pt.z) ∧
      ((projectBoundaries fs.boundaryConstraints sampler pv).2.getD (c.vertexIndex * 3) 0 = 0 ∧
       (projectBoundaries fs.boundaryConstraints sampler pv).2.getD (c.vertexIndex * 3 + 1) 0 = 0 ∧
       (projectBoundaries fs.boundaryConstraints sampler pv).2.getD (c.vertexIndex * 3 + 2) 0 = 0)) ∧
    (∀ pv : List α × List α, ∀ c ∈ fs.boundaryConstraints, sampler c = none →
      ∀ k, k < 3 →
        (projectBoundaries fs.boundaryConstraints sampler pv).1.getD (c.vertexIndex * 3 + k) 0 =
          pv.1.getD (c.vertexIndex * 3 + k) 0 ∧
        (projectBoundaries fs.boundaryConstraints sampler pv).2.getD (c.vertexIndex * 3 + k) 0 =
          pv.2.getD (c.vertexIndex * 3 + k) 0) ∧
    (∀ c ∈ fs.boundaryConstraints, ∀ pt, sampler c = some pt →
      c.vertexIndex * 3 + 2 < fs.positions.length →
      c.vertexIndex * 3 + 2 < fs.velocities.length →
      (((runRelaxationStep ops fs (createSolverContext fs) sampler b).1.1.getD
          (c.vertexIndex * 3) 0 = pt.x ∧
        (runRelaxationStep ops fs (createSolverContext fs) sampler b).1.1.getD
          (c.vertexIndex * 3 + 1) 0 = pt.y ∧
        (runRelaxationStep ops fs (createSolverContext fs) sampler b).1.1.getD
          (c.vertexIndex * 3 + 2) 0 = pt.z) ∧
       ((runRelaxationStep ops fs (createSolverContext fs) sampler b).1.2.getD
          (c.vertexIndex * 3) 0 = 0 ∧
        (runRelaxationStep ops fs (createSolverContext fs) sampler b).1.2.getD
          (c.vertexIndex * 3 + 1) 0 = 0 ∧
        (runRelaxationStep ops fs (createSolverContext fs) sampler b).1.2.getD
          (c.vertexIndex * 3 + 2) 0 = 0))) := by
  refine ⟨?_, ?_, ?_⟩
  · intro pv c hc pt hpt h1 h2
    exact projectBoundaries_target sampler fs.boundaryConstraints pv hdist c hc pt hpt h1 h2
  · intro pv c hc hnone k hk
    have hall : ∀ c' ∈ fs.boundaryConstraints,
        sampler c' = none ∨ c'.vertexIndex ≠ c.vertexIndex := by
      intro c' hc'
      by_cases hcc : c' = c
      · subst hcc; exact Or.inl hnone
      · have hsymm : Symmetric (fun c c' : BoundaryConstraint α =>
            c.vertexIndex ≠ c'.vertexIndex) := fun x y h heq => h heq.symm
        exact Or.inr (List.Pairwise.forall hsymm hdist hc' hc hcc)
    exact projectBoundaries_untouched sampler c.vertexIndex fs.boundaryConstraints pv hall k hk
  · intro c hc pt hpt h1 h2
    obtain ⟨m, hm⟩ : ∃ m, fs.solverConfig.substeps = m + 1 :=
      ⟨fs.solverConfig.substeps - 1, by omega⟩
    have hstep : (runRelaxationStep ops fs (createSolverContext fs) sampler b).1 =
        substep ops fs.indices fs.boundaryConstraints fs.restPositions fs.solverConfig
          (createSolverContext fs) sampler
          ((List.range m).foldl
            (fun s _ => substep ops fs.indices fs.boundaryConstraints fs.restPositions
              fs.solverConfig (createSolverContext fs) sampler s)
            (fs.positions, fs.velocities)) := by
      rw [runRelaxationStep, if_neg hne]
      simp only [hm, List.range_succ, List.foldl_append, List.foldl_cons, List.foldl_nil]
    set prev := (List.range m).foldl
      (fun s _ => substep ops fs.indices fs.boundaryConstraints fs.restPositions
        fs.solverConfig (createSolverContext fs) sampler s)
      (fs.positions, fs.velocities) with hprev
    have hplen := substepFold_length ops fs.indices fs.boundaryConstraints fs.restPositions
      fs.solverConfig (createSolverContext fs) sampler (List.range m)
      (fs.positions, fs.velocities)
    have hsl : ∀ Y : List α × List α, Y.1.length = fs.positions.length →
        Y.2.length = fs.velocities.length →
        (((projectBoundaries fs.boundaryConstraints sampler Y).1.getD (c.vertexIndex * 3) 0 = pt.x ∧
          (projectBoundaries fs.boundaryConstraints sampler Y).1.getD (c.vertexIndex * 3 + 1) 0 = pt.y ∧
          (projectBoundaries fs.boundaryConstraints sampler Y).1.getD (c.vertexIndex * 3 + 2) 0 = pt.z) ∧
         ((projectBoundaries fs.boundaryConstraints sampler Y).2.getD (c.vertexIndex * 3) 0 = 0 ∧
          (projectBoundaries fs.boundaryConstraints sampler Y).2.getD (c.vertexIndex * 3 + 1) 0 = 0 ∧
          (projectBoundaries fs.boundaryConstraints sampler Y).2.getD (c.vertexIndex * 3 + 2) 0 = 0)) := by
      intro Y hY1 hY2
      exact projectBoundaries_target sampler fs.boundaryConstraints Y hdist c hc pt hpt
        (by omega) (by omega)
    have hsub2 : substep ops fs.indices fs.boundaryConstraints fs.restPositions fs.solverConfig
        (createSolverContext fs) sampler prev =
        projectBoundaries fs.boundaryConstraints sampler
          ((List.range ((projectBoundaries fs.boundaryConstraints sampler prev).1.length / 3)).foldl
            (integrateVertex fs.solverConfig (createSolverContext fs)
              (projectBoundaries fs.boundaryConstraints sampler prev).1
              (projectBoundaries fs.boundaryConstraints sampler prev).2
              fs.restPositions
              (accumulateAreaGradient ops
                (projectBoundaries fs.boundaryConstraints sampler prev).1 fs.indices
                (List.replicate (projectBoundaries fs.boundaryConstraints sampler prev).1.length 0)))
            ((projectBoundaries fs.boundaryConstraints sampler prev).1,
             (projectBoundaries fs.boundaryConstraints sampler prev).2)) := rfl
    have hY1 : ((List.range ((projectBoundaries fs.boundaryConstraints sampler prev).1.length / 3)).foldl
        (integrateVertex fs.solverConfig (createSolverContext fs)
          (projectBoundaries fs.boundaryConstraints sampler prev).1
          (projectBoundaries fs.boundaryConstraints sampler prev).2
          fs.restPositions
          (accumulateAreaGradient ops
            (projectBoundaries fs.boundaryConstraints sampler prev).1 fs.indices
            (List.replicate (projectBoundaries fs.boundaryConstraints sampler prev).1.length 0)))
        ((projectBoundaries fs.boundaryConstraints sampler prev).1,
         (projectBoundaries fs.boundaryConstraints sampler prev).2)).1.length =
        fs.positions.length := by
      have ha := integrateFold_length fs.solverConfig (createSolverContext fs)
        (projectBoundaries fs.boundaryConstraints sampler prev).1
        (projectBoundaries fs.boundaryConstraints sampler prev).2
        fs.restPositions
        (accumulateAreaGradient ops
          (projectBoundaries fs.boundaryConstraints sampler prev).1 fs.indices
          (List.replicate (projectBoundaries fs.boundaryConstraints sampler prev).1.length 0))
        (List.range ((projectBoundaries fs.boundaryConstraints sampler prev).1.length / 3))
        ((projectBoundaries fs.boundaryConstraints sampler prev).1,
         (projectBoundaries fs.boundaryConstraints sampler prev).2)
      have hb := (projectBoundaries_length sampler fs.boundaryConstraints prev).1
      rw [ha.1, hb, hplen.1]
    have hY2 : ((List.range ((projectBoundaries fs.boundaryConstraints sampler prev).1.length / 3)).foldl
        (integrateVertex fs.solverConfig (createSolverContext fs)
          (projectBoundaries fs.boundaryConstraints sampler prev).1
          (projectBoundaries fs.boundaryConstraints sampler prev).2
          fs.restPositions
          (accumulateAreaGradient ops
            (projectBoundaries fs.boundaryConstraints sampler prev).1 fs.indices
            (List.replicate (projectBoundaries fs.boundaryConstraints sampler prev).1.length 0)))
        ((projectBoundaries fs.boundaryConstraints sampler prev).1,
         (projectBoundaries fs.boundaryConstraints sampler prev).2)).2.length =
        fs.velocities.length := by
      have ha := integrateFold_length fs.solverConfig (createSolverContext fs)
        (projectBoundaries fs.boundaryConstraints sampler prev).1
        (projectBoundaries fs.boundaryConstraints sampler prev).2
        fs.restPositions
        (accumulateAreaGradient ops
          (projectBoundaries fs.boundaryConstraints sampler prev).1 fs.indices
          (List.replicate (projectBoundaries fs.boundaryConstraints sampler prev).1.length 0))
        (List.range ((projectBoundaries fs.boundaryConstraints sampler prev).1.length / 3))
        ((projectBoundaries fs.boundaryConstraints sampler prev).1,
         (projectBoundaries fs.boundaryConstraints sampler prev).2)
      have hb := (projectBoundaries_length sampler fs.boundaryConstraints prev).2
      rw [ha.2, hb, hplen.2]
    rw [hstep, hsub2]
    exact hsl _ hY1 hY2

end SoapFilm

namespace SoapFilm

/-- Concrete witness film state: two vertices, one degenerate triangle
`(0,1,1)`, one boundary constraint on vertex 0 (so vertex 1 is free with
neighbor list `[0, 1]`), default-like solver configuration with one substep. -/
def fsW : FilmState ℚ where
  positions := [0, 0, 0, 1, 0, 0]
  velocities := [0, 0, 0, 0, 0, 0]
  indices := [0, 1, 1]
  boundaryConstraints := [⟨0, "a", 0⟩]
  restPositions := [0, 0, 0, 1, 0, 0]
  solverConfig := ⟨1, 14/100, 92/100, 2/10, 1, 0⟩

/-- Witness sampler: always returns the origin. -/
def samplerW : BoundaryConstraint ℚ → Option (Vec3 ℚ) := fun _ => some ⟨0, 0, 0⟩

/-- Witness constraint and sampled point (the single constraint of `fsW`). -/
def cW : BoundaryConstraint ℚ := ⟨0, "a", 0⟩

def ptW : Vec3 ℚ := ⟨0, 0, 0⟩

def pv1W : List ℚ × List ℚ :=
  projectBoundaries fsW.boundaryConstraints samplerW (fsW.positions, fsW.velocities)

def gW : List ℚ :=
  accumulateAreaGradient ratOps pv1W.1 fsW.indices (List.replicate pv1W.1.length 0)

def nbrsW : List ℕ := (createSolverContext fsW).neighbors.getD 1 []

def resW : List ℚ × List ℚ :=
  substep ratOps fsW.indices fsW.boundaryConstraints fsW.restPositions fsW.solverConfig
    (createSolverContext fsW) samplerW (fsW.positions, fsW.velocities)

/-- Witness for `runRelaxationStep_free_vertex_integration` at the free
vertex 1 of `fsW`. -/
theorem runRelaxationStep_free_vertex_integration_witness :
    (0 ≤ fsW.solverConfig.relaxationStrength ∧ 0 ≤ fsW.solverConfig.shapeRetention ∧
      1 < fsW.positions.length / 3 ∧
      (createSolverContext fsW).boundaryMask.getD 1 0 ≠ 1 ∧
      (createSolverContext fsW).neighbors.getD 1 [] ≠ []) ∧
    ((resW.2.getD (1 * 3) 0 =
        claimNewVelocity fsW.solverConfig pv1W.1 pv1W.2 fsW.restPositions gW nbrsW 1 0 ∧
      resW.2.getD (1 * 3 + 1) 0 =
        claimNewVelocity fsW.solverConfig pv1W.1 pv1W.2 fsW.restPositions gW nbrsW 1 1 ∧
      resW.2.getD (1 * 3 + 2) 0 =
        claimNewVelocity fsW.solverConfig pv1W.1 pv1W.2 fsW.restPositions gW nbrsW 1 2) ∧
     (resW.1.getD (1 * 3) 0 = pv1W.1.getD (1 * 3) 0 +
        claimNewVelocity fsW.solverConfig pv1W.1 pv1W.2 fsW.restPositions gW nbrsW 1 0 *
          fsW.solverConfig.stepSize ∧
      resW.1.getD (1 * 3 + 1) 0 = pv1W.1.getD (1 * 3 + 1) 0 +
        claimNewVelocity fsW.solverConfig pv1W.1 pv1W.2 fsW.restPositions gW nbrsW 1 1 *
          fsW.solverConfig.stepSize ∧
      resW.1.getD (1 * 3 + 2) 0 = pv1W.1.getD (1 * 3 + 2) 0 +
        claimNewVelocity fsW.solverConfig pv1W.1 pv1W.2 fsW.restPositions gW nbrsW 1 2 *
          fsW.solverConfig.stepSize)) :=
  ⟨⟨by norm_num [fsW], by norm_num [fsW], by decide, by decide, by decide⟩,
    (runRelaxationStep_free_vertex_integration ratOps fsW samplerW
        (fsW.positions, fsW.velocities) rfl rfl (by norm_num [fsW]) (by norm_num [fsW])
        1 (by decide) (by decide) (by decide)).2
      pv1W rfl gW rfl nbrsW rfl resW rfl⟩

/-- Witness for `runRelaxationStep_boundary_projection` at the single
constraint of `fsW`. -/
theorem runRelaxationStep_boundary_projection_witness :
    (fsW.boundaryConstraints.Pairwise (fun c c' => c.vertexIndex ≠ c'.vertexIndex) ∧
      1 ≤ fsW.solverConfig.substeps ∧ fsW.indices ≠ [] ∧ samplerW cW = some ptW) ∧
    (((runRelaxationStep ratOps fsW (createSolverContext fsW) samplerW true).1.1.getD
        (cW.vertexIndex * 3) 0 = ptW.x ∧
      (runRelaxationStep ratOps fsW (createSolverContext fsW) samplerW true).1.1.getD
        (cW.vertexIndex * 3 + 1) 0 = ptW.y ∧
      (runRelaxationStep ratOps fsW (createSolverContext fsW) samplerW true).1.1.getD
        (cW.vertexIndex * 3 + 2) 0 = ptW.z) ∧
     ((runRelaxationStep ratOps fsW (createSolverContext fsW) samplerW true).1.2.getD
        (cW.vertexIndex * 3) 0 = 0 ∧
      (runRelaxationStep ratOps fsW (createSolverContext fsW) samplerW true).1.2.getD
        (cW.vertexIndex * 3 + 1) 0 = 0 ∧
      (runRelaxationStep ratOps fsW (createSolverContext fsW) samplerW true).1.2.getD
        (cW.vertexIndex * 3 + 2) 0 = 0)) :=
  ⟨⟨by simp [fsW], by decide, by decide, rfl⟩,
    (runRelaxationStep_boundary_projection ratOps fsW samplerW true
        (by simp [fsW]) (by decide) (by decide)).2.2
      cW (List.mem_singleton.mpr rfl) ptW rfl (by decide) (by decide)⟩

end SoapFilm

namespace SoapFilm

open Batteries

variable {α : Type} [LinearOrderedField α] [FloorRing α]

/-- three.js `Vector3.distanceTo` (used for MST edge weights in mst.ts). -/
def distanceTo (ops : RealOps α) (a b : Vec3 α) : α :=
  ops.sqrt ((b.x - a.x) * (b.x - a.x) + (b.y - a.y) * (b.y - a.y) +
    (b.z - a.z) * (b.z - a.z))

/-- `MstEdge` (mst.ts lines 165-169); `from`/`to` renamed because `from` is a
Lean keyword. -/
structure MstEdge (α : Type) where
  fromId : String
  toId : String
  weight : α

/-- The nested pair-enumeration loops of `buildMst` (mst.ts lines 183-196):
all pairs `(i, j)` with `i < j`, `i` ascending and `j` ascending within. -/
def pairList (n : ℕ) : List (ℕ × ℕ) :=
  (List.range n).flatMap fun i => ((List.range n).drop (i + 1)).map fun j => (i, j)

/-- The weighted-edge list of `buildMst`: pairs whose two centers are both
present, with Euclidean distance as weight. -/
def weightedEdges (ops : RealOps α) (frameIds : List String)
    (frameCenters : String → Option (Vec3 α)) : List (ℕ × ℕ × α) :=
  (pairList frameIds.length).filterMap fun p =>
    match frameCenters (frameIds.getD p.1 ""), frameCenters (frameIds.getD p.2 "") with
    | some a, some b => some (p.1, p.2, distanceTo ops a b)
    | _, _ => none

/-- `weightedEdges.sort((left, right) => left.weight - right.weight)`:
ascending stable sort (V8's sort is stable). -/
def sortEdges (l : List (ℕ × ℕ × α)) : List (ℕ × ℕ × α) :=
  l.mergeSort fun e1 e2 => decide (e1.2.2 ≤ e2.2.2)

/-- The union-find of `buildMst` (mst.ts lines 200-227) is an array-based
structure with path compression (`find`) and union by rank (`unite`),
modelled by `Batteries.UnionFind`, which implements the same structure.
`ufOfSize n` is `parent = [0..n-1], rank = all 0`. -/
def ufOfSize : ℕ → UnionFind
  | 0 => .empty
  | n + 1 => (ufOfSize n).push

/-- In-bounds union (indices fed to it are always `< size`). -/
def uniteUF (uf : UnionFind) (a b : ℕ) : UnionFind :=
  if h : a < uf.size ∧ b < uf.size then uf.union ⟨a, h.1⟩ ⟨b, h.2⟩ else uf

/-- `unite` (mst.ts lines 210-227): returns `true` and merges exactly when
the two roots differ.  Path compression inside the source's `find` changes
no root, so the partition trace — and hence the accepted-edge sequence — is
identical. -/
def unite (uf : UnionFind) (a b : ℕ) : UnionFind × Bool :=
  if uf.rootD a = uf.rootD b then (uf, false) else (uniteUF uf a b, true)

/-- The Kruskal acceptance loop of `buildMst` (mst.ts lines 229-242):
accept an edge when `unite` succeeds, stopping once `n - 1` edges are
accepted. -/
def kruskal (n : ℕ) : List (ℕ × ℕ × α) → UnionFind → List (ℕ × ℕ × α) → List (ℕ × ℕ × α)
  | [], _, acc => acc
  | e :: rest, uf, acc =>
    let r := unite uf e.1 e.2.1
    if r.2 then
      let acc' := acc ++ [e]
      if acc'.length = n - 1 then acc' else kruskal n rest r.1 acc'
    else kruskal n rest uf acc

/-- The accepted edges of `buildMst`, as index pairs with weights. -/
def buildMstIdx (ops : RealOps α) (frameIds : List String)
    (frameCenters : String → Option (Vec3 α)) : List (ℕ × ℕ × α) :=
  if frameIds.length ≤ 1 then []
  else
    kruskal frameIds.length (sortEdges (weightedEdges ops frameIds frameCenters))
      (ufOfSize frameIds.length) []

/-- `buildMst` (mst.ts lines 177-245). -/
def buildMst (ops : RealOps α) (frameIds : List String)
    (frameCenters : String → Option (Vec3 α)) : List (MstEdge α) :=
  (buildMstIdx ops frameIds frameCenters).map fun e =>
    ⟨frameIds.getD e.1 "", frameIds.getD e.2.1 "", e.2.2⟩

/-- Undirected adjacency induced by a weighted edge list. -/
def edgeRel (E : List (ℕ × ℕ × α)) (a b : ℕ) : Prop :=
  ∃ w, (a, b, w) ∈ E ∨ (b, a, w) ∈ E

/-- Connectivity (equivalence closure of adjacency) in a weighted edge list. -/
def linked (E : List (ℕ × ℕ × α)) : ℕ → ℕ → Prop :=
  Relation.EqvGen (edgeRel E)

/-- A forest: removing any single edge disconnects its two endpoints. -/
def Forest (E : List (ℕ × ℕ × α)) : Prop :=
  ∀ (E₁ : List (ℕ × ℕ × α)) (e : ℕ × ℕ × α) (E₂ : List (ℕ × ℕ × α)),
    E = E₁ ++ e :: E₂ → ¬ linked (E₁ ++ E₂) e.1 e.2.1

/-- Number of union-find classes among the first `n` nodes. -/
def numClasses (uf : UnionFind) (n : ℕ) : ℕ :=
  ((Finset.range n).image uf.rootD).card

theorem linked_mono {E Em : List (ℕ × ℕ × α)} (h : ∀ e ∈ E, e ∈ Em) {a b : ℕ}
    (hl : linked E a b) : linked Em a b :=
  Relation.EqvGen.mono (fun p q ⟨w, hw⟩ =>
    ⟨w, hw.imp (fun hm => h _ hm) (fun hm => h _ hm)⟩) hl

theorem linked_of_mem {E : List (ℕ × ℕ × α)} {a b : ℕ} {w : α}
    (h : (a, b, w) ∈ E) : linked E a b :=
  Relation.EqvGen.rel a b ⟨w, Or.inl h⟩

theorem linked_refl (E : List (ℕ × ℕ × α)) (a : ℕ) : linked E a a :=
  Relation.EqvGen.refl a

theorem linked_symm {E : List (ℕ × ℕ × α)} {a b : ℕ} (h : linked E a b) :
    linked E b a :=
  Relation.EqvGen.symm a b h

theorem linked_trans {E : List (ℕ × ℕ × α)} {a b c : ℕ} (h1 : linked E a b)
    (h2 : linked E b c) : linked E a c :=
  Relation.EqvGen.trans a b c h1 h2

theorem linked_nil {a b : ℕ} (h : linked ([] : List (ℕ × ℕ × α)) a b) : a = b := by
  induction h with
  | rel p q hr => obtain ⟨w, hw⟩ := hr; simp at hw
  | refl p => rfl
  | symm p q hpq ih => exact ih.symm
  | trans p q r hpq hqr ih1 ih2 => exact ih1.trans ih2

theorem ufOfSize_size : ∀ n, (ufOfSize n).size = n
  | 0 => rfl
  | n + 1 => by
    show ((ufOfSize n).push).size = n + 1
    have h := ufOfSize_size n
    simp only [UnionFind.size] at h
    simp only [UnionFind.size, UnionFind.arr_push, Array.size_push]
    omega

theorem ufOfSize_parent : ∀ n i, (ufOfSize n).parent i = i
  | 0, i => rfl
  | n + 1, i => by
    show ((ufOfSize n).push).parent i = i
    rw [UnionFind.parent_push]
    exact ufOfSize_parent n i

theorem ufOfSize_rootD (n i : ℕ) : (ufOfSize n).rootD i = i :=
  UnionFind.rootD_eq_self.mpr (ufOfSize_parent n i)

theorem union_size (uf : UnionFind) (x y : Fin uf.size) :
    (uf.union x y).size = uf.size := by
  unfold UnionFind.union
  split
  next s s1 root1 ex =>
    dsimp only
    simp only [UnionFind.size, UnionFind.arr_link, UnionFind.linkAux_size]
    rw [show ((s.find ⟨↑y, by rw [root1]; exact y.2⟩).fst.arr.size = s.arr.size) from
      UnionFind.find_size s ⟨↑y, by rw [root1]; exact y.2⟩]
    exact root1

theorem uniteUF_size (uf : UnionFind) (a b : ℕ) :
    (uniteUF uf a b).size = uf.size := by
  unfold uniteUF
  split
  · exact union_size uf _ _
  · rfl

end SoapFilm

namespace SoapFilm

variable {α : Type} [LinearOrderedField α] [FloorRing α]

/-- Adding one edge `(x, y)` to an edge list joins exactly the classes of `x`
and of `y` in the connectivity relation. -/
theorem linked_append_pair (E₁ E₂ : List (ℕ × ℕ × α)) (x y : ℕ) (w : α) (a b : ℕ) :
    linked (E₁ ++ (x, y, w) :: E₂) a b ↔
      linked (E₁ ++ E₂) a b ∨
      (linked (E₁ ++ E₂) a x ∧ linked (E₁ ++ E₂) y b) ∨
      (linked (E₁ ++ E₂) a y ∧ linked (E₁ ++ E₂) x b) := by
  constructor
  · intro h
    induction h with
    | rel p q hr =>
      obtain ⟨w', hw⟩ := hr
      rcases hw with hmem | hmem
      · rcases List.mem_append.mp hmem with h1 | h1
        · exact Or.inl (linked_of_mem (List.mem_append.mpr (Or.inl h1)))
        · rcases List.mem_cons.mp h1 with heq | h2
          · have hp : p = x := congrArg Prod.fst heq
            have hq : q = y := congrArg Prod.fst (congrArg Prod.snd heq)
            subst hp; subst hq
            exact Or.inr (Or.inl ⟨linked_refl _ _, linked_refl _ _⟩)
          · exact Or.inl (linked_of_mem (List.mem_append.mpr (Or.inr h2)))
      · rcases List.mem_append.mp hmem with h1 | h1
        · exact Or.inl (Relation.EqvGen.rel p q ⟨w', Or.inr (List.mem_append.mpr (Or.inl h1))⟩)
        · rcases List.mem_cons.mp h1 with heq | h2
          · have hq : q = x := congrArg Prod.fst heq
            have hp : p = y := congrArg Prod.fst (congrArg Prod.snd heq)
            subst hp; subst hq
            exact Or.inr (Or.inr ⟨linked_refl _ _, linked_refl _ _⟩)
          · exact Or.inl (Relation.EqvGen.rel p q ⟨w', Or.inr (List.mem_append.mpr (Or.inr h2))⟩)
    | refl p => exact Or.inl (linked_refl _ p)
    | symm p q hpq ih =>
      rcases ih with h | ⟨h1, h2⟩ | ⟨h1, h2⟩
      · exact Or.inl (linked_symm h)
      · exact Or.inr (Or.inr ⟨linked_symm h2, linked_symm h1⟩)
      · exact Or.inr (Or.inl ⟨linked_symm h2, linked_symm h1⟩)
    | trans p q r hpq hqr ih1 ih2 =>
      rcases ih1 with h1 | ⟨h1, h2⟩ | ⟨h1, h2⟩ <;>
        rcases ih2 with h3 | ⟨h3, h4⟩ | ⟨h3, h4⟩
      · exact Or.inl (linked_trans h1 h3)
      · exact Or.inr (Or.inl ⟨linked_trans h1 h3, h4⟩)
      · exact Or.inr (Or.inr ⟨linked_trans h1 h3, h4⟩)
      · exact Or.inr (Or.inl ⟨h1, linked_trans h2 h3⟩)
      · exact Or.inl (linked_trans (linked_trans h1 (linked_symm h3))
          (linked_trans (linked_symm h2) h4))
      · exact Or.inl (linked_trans h1 h4)
      · exact Or.inr (Or.inr ⟨h1, linked_trans h2 h3⟩)
      · exact Or.inl (linked_trans h1 h4)
      · exact Or.inl (linked_trans (linked_trans h1 (linked_symm h3))
          (linked_trans (linked_symm h2) h4))
  · intro h
    have hmem : ∀ e ∈ E₁ ++ E₂, e ∈ E₁ ++ (x, y, w) :: E₂ := by
      intro e he
      rcases List.mem_append.mp he with h1 | h1
      · exact List.mem_append.mpr (Or.inl h1)
      · exact List.mem_append.mpr (Or.inr (List.mem_cons.mpr (Or.inr h1)))
    have hxy : linked (E₁ ++ (x, y, w) :: E₂) x y :=
      linked_of_mem (List.mem_append.mpr (Or.inr (List.mem_cons.mpr (Or.inl rfl))))
    rcases h with h | ⟨h1, h2⟩ | ⟨h1, h2⟩
    · exact linked_mono hmem h
    · exact linked_trans (linked_mono hmem h1) (linked_trans hxy (linked_mono hmem h2))
    · exact linked_trans (linked_mono hmem h1)
        (linked_trans (linked_symm hxy) (linked_mono hmem h2))

/-- Appending an edge between two components that are not yet connected
preserves the forest property. -/
theorem Forest_append (E : List (ℕ × ℕ × α)) (x y : ℕ) (w : α)
    (hF : Forest E) (hnl : ¬ linked E x y) : Forest (E ++ [(x, y, w)]) := by
  intro E₁ e E₂ hsplit hlink
  rcases E₂.eq_nil_or_concat with rfl | ⟨l, b, rfl⟩
  · -- the split isolates the freshly appended edge: E₁ = E and e = (x, y, w)
    have hinj := List.append_inj' hsplit (by rfl)
    obtain ⟨rfl, he⟩ := hinj
    have he2 : e = (x, y, w) := by
      have := (List.cons.injEq (x, y, w) [] e []).mp he
      exact this.1.symm
    subst he2
    rw [List.append_nil] at hlink
    exact hnl hlink
  · -- the split isolates an edge inside E
    rw [List.concat_eq_append] at hsplit hlink
    have hassoc : E₁ ++ e :: (l ++ [b]) = (E₁ ++ e :: l) ++ [b] := by simp
    rw [hassoc] at hsplit
    have hinj := List.append_inj' hsplit (by rfl)
    obtain ⟨hE, hb⟩ := hinj
    have hb2 : b = (x, y, w) := by
      have := (List.cons.injEq (x, y, w) [] b []).mp hb
      exact this.1.symm
    subst hb2
    have hmemE : ∀ e' ∈ E₁ ++ l, e' ∈ E := by
      intro e' he'
      rw [hE]
      rcases List.mem_append.mp he' with h1 | h1
      · exact List.mem_append.mpr (Or.inl h1)
      · exact List.mem_append.mpr (Or.inr (List.mem_cons.mpr (Or.inr h1)))
    have hedge : linked E e.1 e.2.1 := by
      rw [hE]
      exact linked_of_mem (List.mem_append.mpr (Or.inr (List.mem_cons.mpr (Or.inl rfl))))
    have hlink2 : linked ((E₁ ++ l) ++ (x, y, w) :: []) e.1 e.2.1 := by
      have : E₁ ++ (l ++ [(x, y, w)]) = (E₁ ++ l) ++ (x, y, w) :: [] := by simp
      rw [← this]
      exact hlink
    rcases (linked_append_pair (E₁ ++ l) [] x y w e.1 e.2.1).mp hlink2 with
        h | ⟨h1, h2⟩ | ⟨h1, h2⟩
    · rw [List.append_nil] at h
      exact hF E₁ e l hE h
    · rw [List.append_nil] at h1 h2
      exact hnl (linked_trans (linked_symm (linked_mono hmemE h1))
        (linked_trans hedge (linked_symm (linked_mono hmemE h2))))
    · rw [List.append_nil] at h1 h2
      exact hnl (linked_trans (linked_mono hmemE h2)
        (linked_trans (linked_symm hedge) (linked_mono hmemE h1)))

end SoapFilm

namespace SoapFilm

open Batteries

variable {α : Type} [LinearOrderedField α] [FloorRing α]

/-- Two functions with the same kernel on a finite set have image sets of the
same cardinality. -/
theorem card_image_eq_of_ker (f g : ℕ → ℕ) :
    ∀ (s : Finset ℕ), (∀ i ∈ s, ∀ j ∈ s, f i = f j ↔ g i = g j) →
      (s.image f).card = (s.image g).card := by
  intro s
  induction s using Finset.induction_on with
  | empty => intro; simp
  | insert hx ih =>
    rename_i a s
    intro h
    rw [Finset.image_insert, Finset.image_insert]
    by_cases hf : f a ∈ s.image f
    · have hg : g a ∈ s.image g := by
        obtain ⟨b, hb, hfb⟩ := Finset.mem_image.mp hf
        exact Finset.mem_image.mpr
          ⟨b, hb, (h b (by simp [hb]) a (by simp)).mp hfb⟩
      rw [Finset.insert_eq_self.mpr hf, Finset.insert_eq_self.mpr hg]
      exact ih fun i hi j hj => h i (by simp [hi]) j (by simp [hj])
    · have hg : g a ∉ s.image g := by
        intro hga
        obtain ⟨b, hb, hgb⟩ := Finset.mem_image.mp hga
        exact hf (Finset.mem_image.mpr
          ⟨b, hb, (h b (by simp [hb]) a (by simp)).mpr hgb⟩)
      rw [Finset.card_insert_of_not_mem hf, Finset.card_insert_of_not_mem hg,
        ih fun i hi j hj => h i (by simp [hi]) j (by simp [hj])]

theorem equiv_uniteUF (uf : UnionFind) (a b : ℕ)
    (ha : a < uf.size) (hb : b < uf.size) (p q : ℕ) :
    (uniteUF uf a b).Equiv p q ↔
      (uf.Equiv p q ∨ uf.Equiv p a ∧ uf.Equiv b q ∨ uf.Equiv p b ∧ uf.Equiv a q) := by
  rw [uniteUF, dif_pos ⟨ha, hb⟩]
  exact UnionFind.equiv_union

/-- Uniting two nodes that are not yet equivalent reduces the number of
classes by exactly one. -/
theorem numClasses_uniteUF {n : ℕ} (uf : UnionFind) (hsize : uf.size = n)
    (a b : ℕ) (ha : a < n) (hb : b < n) (hne : ¬ uf.Equiv a b) :
    numClasses (uniteUF uf a b) n + 1 = numClasses uf n := by
  have ha' : a < uf.size := by omega
  have hb' : b < uf.size := by omega
  have hker : ∀ i ∈ Finset.range n, ∀ j ∈ Finset.range n,
      (uniteUF uf a b).rootD i = (uniteUF uf a b).rootD j ↔
        (if uf.rootD i = uf.rootD b then uf.rootD a else uf.rootD i) =
        (if uf.rootD j = uf.rootD b then uf.rootD a else uf.rootD j) := by
    intro i hi j hj
    have hu := equiv_uniteUF uf a b ha' hb' i j
    have hne2 : uf.rootD a ≠ uf.rootD b := hne
    rw [show ((uniteUF uf a b).rootD i = (uniteUF uf a b).rootD j) ↔
        (uniteUF uf a b).Equiv i j from Iff.rfl, hu]
    simp only [UnionFind.Equiv]
    split_ifs <;> omega
  rw [numClasses, numClasses, card_image_eq_of_ker _ _ _ hker]
  have himg : (Finset.range n).image
        (fun i => if uf.rootD i = uf.rootD b then uf.rootD a else uf.rootD i) =
      ((Finset.range n).image uf.rootD).erase (uf.rootD b) := by
    ext z
    simp only [Finset.mem_image, Finset.mem_erase, Finset.mem_range]
    constructor
    · rintro ⟨i, hi, rfl⟩
      by_cases h1 : uf.rootD i = uf.rootD b
      · rw [if_pos h1]
        exact ⟨fun hc => hne hc, a, ha, rfl⟩
      · rw [if_neg h1]
        exact ⟨h1, i, hi, rfl⟩
    · rintro ⟨hzb, i, hi, rfl⟩
      exact ⟨i, hi, if_neg hzb⟩
  rw [himg, Finset.card_erase_of_mem
    (Finset.mem_image.mpr ⟨b, Finset.mem_range.mpr hb, rfl⟩)]
  have hpos : 0 < ((Finset.range n).image uf.rootD).card :=
    Finset.card_pos.mpr ⟨uf.rootD b, Finset.mem_image.mpr ⟨b, Finset.mem_range.mpr hb, rfl⟩⟩
  omega

theorem numClasses_ufOfSize (n : ℕ) : numClasses (ufOfSize n) n = n := by
  unfold numClasses
  have himg : (Finset.range n).image (ufOfSize n).rootD = Finset.range n := by
    ext z
    simp only [Finset.mem_image, Finset.mem_range]
    constructor
    · rintro ⟨i, hi, rfl⟩
      rw [ufOfSize_rootD]
      exact hi
    · intro hz
      exact ⟨z, hz, ufOfSize_rootD n z⟩
  rw [himg, Finset.card_range]

theorem equiv_ufOfSize (n a b : ℕ) : (ufOfSize n).Equiv a b ↔ a = b := by
  simp only [UnionFind.Equiv, ufOfSize_rootD]

end SoapFilm

namespace SoapFilm

open Batteries

variable {α : Type} [LinearOrderedField α] [FloorRing α]

/-- The invariant maintained by the Kruskal acceptance loop: the union-find
partition coincides with connectivity in the accepted edges, the class count
complements the accepted count, and the accepted edges form an in-range
forest. -/
def KruskalInv (n : ℕ) (uf : UnionFind) (acc : List (ℕ × ℕ × α)) : Prop :=
  uf.size = n ∧
  (∀ a b, a < n → b < n → (uf.Equiv a b ↔ linked acc a b)) ∧
  acc.length + numClasses uf n = n ∧
  Forest acc ∧
  (∀ e ∈ acc, e.1 < n ∧ e.2.1 < n)

theorem kruskal_spec (n : ℕ) :
    ∀ (rem : List (ℕ × ℕ × α)) (uf : UnionFind) (acc : List (ℕ × ℕ × α)),
      KruskalInv n uf acc →
      (∀ e ∈ rem, e.1 < n ∧ e.2.1 < n) →
      ∃ uf2, KruskalInv n uf2 (kruskal n rem uf acc) ∧
        (∀ p q, uf.Equiv p q → uf2.Equiv p q) ∧
        ((kruskal n rem uf acc).length = n - 1 ∨
          ∀ e ∈ rem, uf2.Equiv e.1 e.2.1)
  | [], uf, acc, hinv, hrange =>
    ⟨uf, hinv, fun p q h => h, Or.inr (by simp)⟩
  | e :: rest, uf, acc, hinv, hrange => by
    obtain ⟨hsize, hiff, hcount, hforest, haccr⟩ := hinv
    have hex : e.1 < n ∧ e.2.1 < n := hrange e (by simp)
    have hrest : ∀ e' ∈ rest, e'.1 < n ∧ e'.2.1 < n := fun e' he' =>
      hrange e' (by simp [he'])
    by_cases hEq : uf.rootD e.1 = uf.rootD e.2.1
    · -- rejected edge: already connected
      have hred : kruskal n (e :: rest) uf acc = kruskal n rest uf acc := by
        simp only [kruskal, unite, if_pos hEq]
        simp
      rw [hred]
      obtain ⟨uf2, hinv2, hmono, hca⟩ :=
        kruskal_spec n rest uf acc ⟨hsize, hiff, hcount, hforest, haccr⟩ hrest
      refine ⟨uf2, hinv2, hmono, ?_⟩
      rcases hca with h | h
      · exact Or.inl h
      · refine Or.inr fun e' he' => ?_
        rcases List.mem_cons.mp he' with rfl | hm
        · exact hmono _ _ hEq
        · exact h e' hm
    · -- accepted edge
      have ha' : e.1 < uf.size := by omega
      have hb' : e.2.1 < uf.size := by omega
      have hnEq : ¬ uf.Equiv e.1 e.2.1 := hEq
      have hnl : ¬ linked acc e.1 e.2.1 := fun hl =>
        hEq ((hiff e.1 e.2.1 hex.1 hex.2).mpr hl)
      have hred : kruskal n (e :: rest) uf acc =
          (if (acc ++ [e]).length = n - 1 then acc ++ [e]
           else kruskal n rest (uniteUF uf e.1 e.2.1) (acc ++ [e])) := by
        simp only [kruskal, unite, if_neg hEq]
        simp
      have hiff2 : ∀ a b, a < n → b < n →
          ((uniteUF uf e.1 e.2.1).Equiv a b ↔ linked (acc ++ [e]) a b) := by
        intro a b ha hb
        rw [equiv_uniteUF uf e.1 e.2.1 ha' hb' a b]
        have hsplit : acc ++ [e] = acc ++ (e.1, e.2.1, e.2.2) :: [] := rfl
        rw [hsplit, linked_append_pair acc [] e.1 e.2.1 e.2.2 a b, List.append_nil]
        rw [hiff a b ha hb, hiff a e.1 ha hex.1, hiff e.2.1 b hex.2 hb,
          hiff a e.2.1 ha hex.2, hiff e.1 b hex.1 hb]
      have hcount2 : (acc ++ [e]).length + numClasses (uniteUF uf e.1 e.2.1) n = n := by
        have := numClasses_uniteUF uf hsize e.1 e.2.1 hex.1 hex.2 hnEq
        simp only [List.length_append, List.length_singleton]
        omega
      have hforest2 : Forest (acc ++ [e]) := by
        have : acc ++ [e] = acc ++ [(e.1, e.2.1, e.2.2)] := rfl
        rw [this]
        exact Forest_append acc e.1 e.2.1 e.2.2 hforest hnl
      have haccr2 : ∀ e' ∈ acc ++ [e], e'.1 < n ∧ e'.2.1 < n := by
        intro e' he'
        rcases List.mem_append.mp he' with h | h
        · exact haccr e' h
        · rcases List.mem_singleton.mp h with rfl
          exact hex
      have hinv2 : KruskalInv n (uniteUF uf e.1 e.2.1) (acc ++ [e]) :=
        ⟨(uniteUF_size uf e.1 e.2.1).trans hsize, hiff2, hcount2, hforest2, haccr2⟩
      have hfwd : ∀ p q, uf.Equiv p q → (uniteUF uf e.1 e.2.1).Equiv p q := by
        intro p q h
        rw [equiv_uniteUF uf e.1 e.2.1 ha' hb' p q]
        exact Or.inl h
      have hself : (uniteUF uf e.1 e.2.1).Equiv e.1 e.2.1 := by
        rw [equiv_uniteUF uf e.1 e.2.1 ha' hb' e.1 e.2.1]
        exact Or.inr (Or.inl ⟨UnionFind.Equiv.rfl, UnionFind.Equiv.rfl⟩)
      rw [hred]
      by_cases hlen : (acc ++ [e]).length = n - 1
      · rw [if_pos hlen]
        exact ⟨uniteUF uf e.1 e.2.1, hinv2, hfwd, Or.inl hlen⟩
      · rw [if_neg hlen]
        obtain ⟨uf2, hinv3, hmono2, hca⟩ :=
          kruskal_spec n rest (uniteUF uf e.1 e.2.1) (acc ++ [e]) hinv2 hrest
        refine ⟨uf2, hinv3, fun p q h => hmono2 p q (hfwd p q h), ?_⟩
        rcases hca with h | h
        · exact Or.inl h
        · refine Or.inr fun e' he' => ?_
          rcases List.mem_cons.mp he' with rfl | hm
          · exact hmono2 _ _ hself
          · exact h e' hm

end SoapFilm

namespace SoapFilm

open Batteries

variable {α : Type} [LinearOrderedField α] [FloorRing α]

theorem mem_drop_range {n m j : ℕ} : j ∈ (List.range n).drop m ↔ m ≤ j ∧ j < n := by
  rw [List.mem_iff_getElem]
  constructor
  · rintro ⟨i, hi, rfl⟩
    simp only [List.getElem_drop, List.getElem_range]
    simp only [List.length_drop, List.length_range] at hi
    omega
  · intro ⟨h1, h2⟩
    refine ⟨j - m, ?_, ?_⟩
    · simp only [List.length_drop, List.length_range]; omega
    · simp only [List.getElem_drop, List.getElem_range]; omega

theorem mem_pairList {n i j : ℕ} : (i, j) ∈ pairList n ↔ i < j ∧ j < n := by
  unfold pairList
  rw [List.mem_flatMap]
  constructor
  · rintro ⟨i', hi', hmem⟩
    obtain ⟨j', hj', heq⟩ := List.mem_map.mp hmem
    obtain ⟨h1, h2⟩ := mem_drop_range.mp hj'
    have hii : i = i' := (congrArg Prod.fst heq).symm
    have hjj : j = j' := (congrArg Prod.snd heq).symm
    subst hii; subst hjj
    omega
  · intro ⟨h1, h2⟩
    exact ⟨i, List.mem_range.mpr (by omega),
      List.mem_map.mpr ⟨j, mem_drop_range.mpr ⟨by omega, h2⟩, rfl⟩⟩

theorem weightedEdges_range (ops : RealOps α) (frameIds : List String)
    (frameCenters : String → Option (Vec3 α)) :
    ∀ e ∈ weightedEdges ops frameIds frameCenters,
      e.1 < frameIds.length ∧ e.2.1 < frameIds.length := by
  intro e he
  obtain ⟨p, hp, hpe⟩ := List.mem_filterMap.mp he
  have hpl : p.1 < p.2 ∧ p.2 < frameIds.length := mem_pairList.mp hp
  rcases h1 : frameCenters (frameIds.getD p.1 "") with _ | a <;>
    rcases h2 : frameCenters (frameIds.getD p.2 "") with _ | b <;>
      rw [h1, h2] at hpe <;> simp at hpe
  obtain ⟨rfl, rfl, -⟩ := hpe
  refine ⟨?_, ?_⟩
  · show p.1 < frameIds.length
    omega
  · show p.2 < frameIds.length
    omega

theorem weightedEdges_complete (ops : RealOps α) (frameIds : List String)
    (frameCenters : String → Option (Vec3 α))
    (hall : ∀ s ∈ frameIds, ∃ p, frameCenters s = some p)
    {i j : ℕ} (hij : i < j) (hj : j < frameIds.length) :
    ∃ w, (i, j, w) ∈ weightedEdges ops frameIds frameCenters := by
  have hmi : frameIds.getD i "" ∈ frameIds := by
    rw [List.getD_eq_getElem frameIds "" (by omega)]
    exact List.getElem_mem (by omega)
  have hmj : frameIds.getD j "" ∈ frameIds := by
    rw [List.getD_eq_getElem frameIds "" hj]
    exact List.getElem_mem hj
  obtain ⟨a, hca⟩ := hall _ hmi
  obtain ⟨b, hcb⟩ := hall _ hmj
  refine ⟨distanceTo ops a b, List.mem_filterMap.mpr ⟨(i, j), mem_pairList.mpr ⟨hij, hj⟩, ?_⟩⟩
  rw [hca, hcb]

theorem mem_sortEdges {l : List (ℕ × ℕ × α)} {e : ℕ × ℕ × α} :
    e ∈ sortEdges l ↔ e ∈ l := by
  unfold sortEdges
  exact (List.mergeSort_perm l _).mem_iff

theorem all_equiv_of_numClasses_one (uf : UnionFind) (n : ℕ)
    (h1 : numClasses uf n = 1) {a b : ℕ} (ha : a < n) (hb : b < n) :
    uf.Equiv a b := by
  obtain ⟨x, hx⟩ := Finset.card_eq_one.mp h1
  have hma : uf.rootD a ∈ (Finset.range n).image uf.rootD :=
    Finset.mem_image.mpr ⟨a, Finset.mem_range.mpr ha, rfl⟩
  have hmb : uf.rootD b ∈ (Finset.range n).image uf.rootD :=
    Finset.mem_image.mpr ⟨b, Finset.mem_range.mpr hb, rfl⟩
  rw [hx, Finset.mem_singleton] at hma hmb
  exact hma.trans hmb.symm

theorem numClasses_one_of_all_equiv (uf : UnionFind) (n : ℕ) (hn : 1 ≤ n)
    (h : ∀ a b, a < n → b < n → uf.Equiv a b) : numClasses uf n = 1 := by
  unfold numClasses
  have himg : (Finset.range n).image uf.rootD = {uf.rootD 0} := by
    ext z
    simp only [Finset.mem_image, Finset.mem_range, Finset.mem_singleton]
    constructor
    · rintro ⟨i, hi, rfl⟩
      exact (h i 0 hi (by omega)).symm ▸ rfl
    · rintro rfl
      exact ⟨0, by omega, rfl⟩
  rw [himg, Finset.card_singleton]

end SoapFilm

namespace SoapFilm

open Batteries

variable {α : Type} [LinearOrderedField α] [FloorRing α]

/-- C4: for at least 2 frame ids whose centers are all present, `buildMst`
returns exactly N−1 edges whose induced undirected graph on the N ids
(indexed by list position) is connected and acyclic — a spanning tree —
including for duplicated or collinear centers (tied weights); for 0 or 1
ids it returns the empty list. -/
theorem buildMst_spanning_tree (ops : RealOps α) (frameIds : List String)
    (frameCenters : String → Option (Vec3 α))
    (hall : ∀ s ∈ frameIds, ∃ p, frameCenters s = some p)
    (h2 : 2 ≤ frameIds.length) :
    (buildMst ops frameIds frameCenters).length = frameIds.length - 1 ∧
    (∀ a b, a < frameIds.length → b < frameIds.length →
      linked (buildMstIdx ops frameIds frameCenters) a b) ∧
    Forest (buildMstIdx ops frameIds frameCenters) ∧
    (∀ e ∈ buildMstIdx ops frameIds frameCenters,
      e.1 < frameIds.length ∧ e.2.1 < frameIds.length) ∧
    (∀ ids2 : List String, ids2.length ≤ 1 → buildMst ops ids2 frameCenters = []) := by
  have hn1 : ¬ (frameIds.length ≤ 1) := by omega
  have hidx : buildMstIdx ops frameIds frameCenters =
      kruskal frameIds.length (sortEdges (weightedEdges ops frameIds frameCenters))
        (ufOfSize frameIds.length) [] := by
    rw [buildMstIdx, if_neg hn1]
  have hinv0 : KruskalInv frameIds.length (ufOfSize frameIds.length)
      ([] : List (ℕ × ℕ × α)) := by
    refine ⟨ufOfSize_size _, ?_, ?_, ?_, by simp⟩
    · intro a b ha hb
      rw [equiv_ufOfSize]
      constructor
      · rintro rfl; exact linked_refl _ _
      · exact linked_nil
    · simpa using numClasses_ufOfSize frameIds.length
    · intro E₁ e E₂ h
      have hlen := congrArg List.length h
      simp only [List.length_nil, List.length_append, List.length_cons] at hlen
      omega
  have hrange : ∀ e ∈ sortEdges (weightedEdges ops frameIds frameCenters),
      e.1 < frameIds.length ∧ e.2.1 < frameIds.length := fun e he =>
    weightedEdges_range ops frameIds frameCenters e (mem_sortEdges.mp he)
  obtain ⟨uf2, hinv, hmono, hca⟩ := kruskal_spec frameIds.length
    (sortEdges (weightedEdges ops frameIds frameCenters))
    (ufOfSize frameIds.length) [] hinv0 hrange
  obtain ⟨hsize2, hiff2, hcount2, hforest2, hrange2⟩ := hinv
  have hlenconn : (kruskal frameIds.length
        (sortEdges (weightedEdges ops frameIds frameCenters))
        (ufOfSize frameIds.length) []).length = frameIds.length - 1 ∧
      ∀ a b, a < frameIds.length → b < frameIds.length →
        linked (kruskal frameIds.length
          (sortEdges (weightedEdges ops frameIds frameCenters))
          (ufOfSize frameIds.length) []) a b := by
    rcases hca with hl | hallEq
    · refine ⟨hl, fun a b ha hb => ?_⟩
      have hnc : numClasses uf2 frameIds.length = 1 := by omega
      exact (hiff2 a b ha hb).mp (all_equiv_of_numClasses_one uf2 _ hnc ha hb)
    · have hallpairs : ∀ a b, a < frameIds.length → b < frameIds.length →
          uf2.Equiv a b := by
        intro a b ha hb
        rcases Nat.lt_trichotomy a b with h | h | h
        · obtain ⟨w, hw⟩ := weightedEdges_complete ops frameIds frameCenters hall h hb
          exact hallEq (a, b, w) (mem_sortEdges.mpr hw)
        · subst h; exact UnionFind.Equiv.rfl
        · obtain ⟨w, hw⟩ := weightedEdges_complete ops frameIds frameCenters hall h ha
          exact (hallEq (b, a, w) (mem_sortEdges.mpr hw)).symm
      have hnc := numClasses_one_of_all_equiv uf2 frameIds.length (by omega) hallpairs
      exact ⟨by omega, fun a b ha hb => (hiff2 a b ha hb).mp (hallpairs a b ha hb)⟩
  refine ⟨?_, ?_, ?_, ?_, ?_⟩
  · rw [buildMst, List.length_map, hidx]
    exact hlenconn.1
  · rw [hidx]
    exact hlenconn.2
  · rw [hidx]
    exact hforest2
  · rw [hidx]
    exact hrange2
  · intro ids2 hle
    rw [buildMst, buildMstIdx, if_pos hle]
    rfl

/-- Witness centers map: every id has the same (duplicate) center. -/
def centersW : String → Option (Vec3 ℚ) := fun _ => some ⟨0, 0, 0⟩

/-- Witness for `buildMst_spanning_tree` on two ids with identical centers
(tied weights). -/
theorem buildMst_spanning_tree_witness :
    (2 ≤ (["a", "b"] : List String).length) ∧
    ((buildMst ratOps ["a", "b"] centersW).length = 1 ∧
     (∀ a b, a < 2 → b < 2 → linked (buildMstIdx ratOps ["a", "b"] centersW) a b) ∧
     Forest (buildMstIdx ratOps ["a", "b"] centersW) ∧
     (∀ e ∈ buildMstIdx ratOps ["a", "b"] centersW, e.1 < 2 ∧ e.2.1 < 2) ∧
     (∀ ids2 : List String, ids2.length ≤ 1 → buildMst ratOps ids2 centersW = [])) :=
  ⟨by decide,
    buildMst_spanning_tree ratOps ["a", "b"] centersW
      (fun s _ => ⟨⟨0, 0, 0⟩, rfl⟩) (by decide)⟩

end SoapFilm

namespace SoapFilm

variable {α : Type} [LinearOrderedField α] [FloorRing α]

/-- three.js `Matrix4` elements in column-major order (`elements[0..15]`). -/
structure Mat4 (α : Type) where
  e0 : α
  e1 : α
  e2 : α
  e3 : α
  e4 : α
  e5 : α
  e6 : α
  e7 : α
  e8 : α
  e9 : α
  e10 : α
  e11 : α
  e12 : α
  e13 : α
  e14 : α
  e15 : α

/-- three.js `Vector3.applyMatrix4`: affine application with perspective
divide (`w` is never 0 for the affine frame matrices the app produces; the
degenerate value is junk, not read by any claim). -/
def applyMatrix4 (m : Mat4 α) (v : Vec3 α) : Vec3 α :=
  let w := 1 / (m.e3 * v.x + m.e7 * v.y + m.e11 * v.z + m.e15)
  ⟨(m.e0 * v.x + m.e4 * v.y + m.e8 * v.z + m.e12) * w,
   (m.e1 * v.x + m.e5 * v.y + m.e9 * v.z + m.e13) * w,
   (m.e2 * v.x + m.e6 * v.y + m.e10 * v.z + m.e14) * w⟩

/-- three.js `Vector3.setFromMatrixPosition`. -/
def matrixPosition (m : Mat4 α) : Vec3 α := ⟨m.e12, m.e13, m.e14⟩

/-- `FrameRuntime` (filmTopology.ts lines 6-10): `worldMatrix` models
`object.matrixWorld` after `updateMatrixWorld(true)`. -/
structure FrameRuntime (α : Type) where
  id : String
  state : FrameState α
  worldMatrix : Mat4 α

/-- `FilmTopologyBuildResult` (filmTopology.ts lines 12-18).  The flat
`Float32Array` position buffer is modelled as a vertex list: its length is
the vertex count (`positions.length / 3` in the source). -/
structure FilmTopologyBuildResult (α : Type) where
  positions : List (Vec3 α)
  indices : List ℕ
  boundaryConstraints : List (BoundaryConstraint α)
  sampleCount : ℕ
  mstEdgeCount : ℕ

/-- `LoopAlignment` (filmTopology.ts lines 20-23). -/
structure LoopAlignment where
  reverse : Bool
  shift : ℕ

/-- `BuildTopologyOptions` (filmTopology.ts lines 25-27). -/
structure BuildTopologyOptions where
  spanSubdivisions : Option ℕ := none

/-- `mapIndex` (filmTopology.ts lines 156-162).  The reversal branch's
JavaScript `((shift - index) % count + count) % count` (truncated `%`, then
made non-negative) equals the mathematical residue, computed here over `ℤ`. -/
def mapIndex (index count : ℕ) (alignment : LoopAlignment) : ℕ :=
  if !alignment.reverse then (index + alignment.shift) % count
  else ((((alignment.shift : ℤ) - (index : ℤ)) % (count : ℤ) + (count : ℤ)) % (count : ℤ)).toNat

/-- three.js `Vector3.distanceToSquared`. -/
def distanceToSquared (a b : Vec3 α) : α :=
  (b.x - a.x) * (b.x - a.x) + (b.y - a.y) * (b.y - a.y) + (b.z - a.z) * (b.z - a.z)

/-- three.js `Vector3.lerp`. -/
def lerp (a b : Vec3 α) (alpha : α) : Vec3 α :=
  ⟨a.x + (b.x - a.x) * alpha, a.y + (b.y - a.y) * alpha, a.z + (b.z - a.z) * alpha⟩

/-- The per-alignment squared-distance error of `findBestLoopAlignment`
(filmTopology.ts lines 140-144). -/
def alignmentError (loopA loopB : List (Vec3 α)) (count : ℕ) (al : LoopAlignment) : α :=
  ((List.range count).map fun i =>
    distanceToSquared (loopA.getD i ⟨0, 0, 0⟩)
      (loopB.getD (mapIndex i count al) ⟨0, 0, 0⟩)).sum

/-- `findBestLoopAlignment` (filmTopology.ts lines 132-154): exhaustive
search over {no-reversal, reversal} × {shift 0..count-1} for the strictly
smallest error; the `Infinity` initial best error is modelled by an
`Option α` that any first candidate beats. -/
def findBestLoopAlignment (loopA loopB : List (Vec3 α)) : LoopAlignment :=
  let count := loopA.length
  (([false, true].flatMap fun r =>
      (List.range count).map fun s => LoopAlignment.mk r s).foldl
    (fun (best : LoopAlignment × Option α) al =>
      let error := alignmentError loopA loopB count al
      match best.2 with
      | none => (al, some error)
      | some bestError => if error < bestError then (al, some error) else best)
    (LoopAlignment.mk false 0, none)).1

/-- A frame's world-space boundary loop (filmTopology.ts lines 62-63). -/
def worldLoop (ops : RealOps α) (r : FrameRuntime α) (sampleCount : ℕ) : List (Vec3 α) :=
  (sampleFrameBoundaryLocal ops r.state sampleCount).map (applyMatrix4 r.worldMatrix)

/-- Last-write-wins association-list lookup, modelling `Map.set`/`Map.get`
(duplicate frame ids overwrite earlier entries). -/
def lookupLast {β : Type} (l : List (String × β)) (s : String) : Option β :=
  (l.reverse.find? fun p => p.1 == s).map Prod.snd

/-- The bridge-strip emission for one MST edge (filmTopology.ts lines
84-121), in functional form.  The mutable `grid` is replaced by direct index
arithmetic: middle vertices are pushed for `i` ascending and `step`
ascending, so the vertex pushed for `(i, step)` (with `1 ≤ step ≤
spanSubdivisions - 1`) receives index
`base + i * (spanSubdivisions - 1) + (step - 1)` where `base` is the vertex
count before this edge. -/
def processEdge (ops : RealOps α) (sampleCount spanSubdivisions : ℕ)
    (loopByFrame : String → Option (List (Vec3 α)))
    (boundaryIndexByFrame : String → Option (List ℕ))
    (state : List (Vec3 α) × List ℕ) (edge : MstEdge α) : List (Vec3 α) × List ℕ :=
  match loopByFrame edge.fromId, loopByFrame edge.toId,
      boundaryIndexByFrame edge.fromId, boundaryIndexByFrame edge.toId with
  | some loopA, some loopB, some boundaryA, some boundaryB =>
    let alignment := findBestLoopAlignment loopA loopB
    let base := state.1.length
    let grid : ℕ → ℕ → ℕ := fun i step =>
      if step = 0 then boundaryA.getD i 0
      else if step = spanSubdivisions then
        boundaryB.getD (mapIndex i sampleCount alignment) 0
      else base + i * (spanSubdivisions - 1) + (step - 1)
    let newPoints := (List.range sampleCount).flatMap fun i =>
      (List.range (spanSubdivisions - 1)).map fun s =>
        lerp (loopA.getD i ⟨0, 0, 0⟩)
          (loopB.getD (mapIndex i sampleCount alignment) ⟨0, 0, 0⟩)
          (((s + 1 : ℕ) : α) / (spanSubdivisions : α))
    let newIndices := (List.range sampleCount).flatMap fun i =>
      (List.range spanSubdivisions).flatMap fun step =>
        [grid i step, grid ((i + 1) % sampleCount) step,
         grid ((i + 1) % sampleCount) (step + 1),
         grid i step, grid ((i + 1) % sampleCount) (step + 1), grid i (step + 1)]
    (state.1 ++ newPoints, state.2 ++ newIndices)
  | _, _, _, _ => state

/-- `buildFilmTopology` (filmTopology.ts lines 29-130). -/
def buildFilmTopology (ops : RealOps α) (frameRuntimes : List (FrameRuntime α))
    (options : BuildTopologyOptions) : FilmTopologyBuildResult α :=
  if frameRuntimes.length < 2 then
    ⟨[], [], [], 0, 0⟩
  else
    let spanSubdivisions := max 2 (options.spanSubdivisions.getD 24)
    let sampleCount := max 8 ((frameRuntimes.map fun r => r.state.boundarySamples).min?.getD 0)
    let loops := frameRuntimes.map fun r => (r.id, worldLoop ops r sampleCount)
    let positionsFrames := loops.flatMap Prod.snd
    let frameIds := frameRuntimes.map fun r => r.id
    let boundaryConstraints : List (BoundaryConstraint α) :=
      (List.range frameRuntimes.length).flatMap fun k =>
        (List.range sampleCount).map fun i =>
          ⟨k * sampleCount + i, frameIds.getD k "", (i : α) / (sampleCount : α)⟩
    let boundaryIndexPairs := (List.range frameRuntimes.length).map fun k =>
      (frameIds.getD k "", (List.range sampleCount).map fun i => k * sampleCount + i)
    let loopByFrame := fun s => lookupLast loops s
    let boundaryIndexByFrame := fun s => lookupLast boundaryIndexPairs s
    let frameCenters := fun s =>
      lookupLast (frameRuntimes.map fun r => (r.id, matrixPosition r.worldMatrix)) s
    let mstEdges := buildMst ops frameIds frameCenters
    let final := mstEdges.foldl
      (processEdge ops sampleCount spanSubdivisions loopByFrame boundaryIndexByFrame)
      (positionsFrames, [])
    ⟨final.1, final.2, boundaryConstraints, sampleCount, mstEdges.length⟩

end SoapFilm

namespace SoapFilm

variable {α : Type} [LinearOrderedField α] [FloorRing α]

theorem getD_mem_or_default {β : Type} (l : List β) (i : ℕ) (d : β) :
    l.getD i d = d ∨ l.getD i d ∈ l := by
  by_cases h : i < l.length
  · right
    rw [List.getD_eq_getElem l d h]
    exact List.getElem_mem h
  · left
    exact List.getD_eq_default l d (by omega)

theorem lookupLast_mem {β : Type} {l : List (String × β)} {s : String} {b : β}
    (h : lookupLast l s = some b) : ∃ p ∈ l, p.2 = b := by
  unfold lookupLast at h
  rcases hf : l.reverse.find? (fun p => p.1 == s) with _ | p
  · rw [hf] at h; simp at h
  · rw [hf] at h
    refine ⟨p, List.mem_reverse.mp (List.mem_of_find?_eq_some hf), ?_⟩
    have h2 : some p.2 = some b := h
    exact Option.some.inj h2

/-- Every vertex index stored in the boundary-index map is below `N * S`. -/
theorem boundaryIndexPairs_values (N S : ℕ) (ids : List String) :
    ∀ (s : String) (l : List ℕ),
      lookupLast ((List.range N).map fun k =>
        (ids.getD k "", (List.range S).map fun i => k * S + i)) s = some l →
      ∀ v ∈ l, v < N * S := by
  intro s l h v hv
  obtain ⟨p, hp, hpl⟩ := lookupLast_mem h
  obtain ⟨k, hk, hkp⟩ := List.mem_map.mp hp
  have hl : l = (List.range S).map fun i => k * S + i := by
    rw [← hpl, ← hkp]
  subst hl
  obtain ⟨i, hi, rfl⟩ := List.mem_map.mp hv
  have hk' : k < N := List.mem_range.mp hk
  have hi' : i < S := List.mem_range.mp hi
  have h1 : k * S + S ≤ N * S := by
    have ha : (k + 1) * S ≤ N * S := Nat.mul_le_mul_right S (by omega)
    have hb : (k + 1) * S = k * S + S := by ring
    omega
  omega

theorem flatMap_const_length {β : Type} (n m : ℕ) (f : ℕ → ℕ → β) :
    ((List.range n).flatMap fun i => (List.range m).map (f i)).length = n * m := by
  rw [List.length_flatMap]
  have : (List.map (fun i => ((List.range m).map (f i)).length) (List.range n)) =
      List.replicate n m := by
    rw [List.eq_replicate_iff]
    constructor
    · simp
    · intro b hb
      obtain ⟨i, hi, rfl⟩ := List.mem_map.mp hb
      simp
  rw [show (List.length ∘ fun i => (List.range m).map (f i)) =
      fun i => ((List.range m).map (f i)).length from rfl] at *
  rw [this, List.sum_replicate, smul_eq_mul]

/-- One bridge strip keeps all triangle indices valid and never shrinks the
vertex buffer. -/
theorem processEdge_invariant (ops : RealOps α) (S span B : ℕ)
    (hS : 0 < S) (hspan : 2 ≤ span) (hBpos : 0 < B)
    (loopByFrame : String → Option (List (Vec3 α)))
    (bIdx : String → Option (List ℕ))
    (hbIdx : ∀ s l, bIdx s = some l → ∀ v ∈ l, v < B)
    (state : List (Vec3 α) × List ℕ) (edge : MstEdge α)
    (hstate : ∀ i ∈ state.2, i < state.1.length)
    (hB : B ≤ state.1.length) :
    (∀ i ∈ (processEdge ops S span loopByFrame bIdx state edge).2,
      i < (processEdge ops S span loopByFrame bIdx state edge).1.length) ∧
    B ≤ (processEdge ops S span loopByFrame bIdx state edge).1.length := by
  unfold processEdge
  rcases h1 : loopByFrame edge.fromId with _ | loopA <;>
    rcases h2 : loopByFrame edge.toId with _ | loopB <;>
    rcases h3 : bIdx edge.fromId with _ | boundaryA <;>
    rcases h4 : bIdx edge.toId with _ | boundaryB <;>
    simp only <;>
    try exact ⟨hstate, hB⟩
  -- the all-some case
  have hA := hbIdx _ _ h3
  have hBv := hbIdx _ _ h4
  have hnewlen : ((List.range S).flatMap fun i =>
      (List.range (span - 1)).map fun s =>
        lerp (loopA.getD i ⟨0, 0, 0⟩)
          (loopB.getD (mapIndex i S (findBestLoopAlignment loopA loopB)) ⟨0, 0, 0⟩)
          (((s + 1 : ℕ) : α) / (span : α))).length = S * (span - 1) :=
    flatMap_const_length S (span - 1) _
  have hlen2 : (state.1 ++ (List.range S).flatMap fun i =>
      (List.range (span - 1)).map fun s =>
        lerp (loopA.getD i ⟨0, 0, 0⟩)
          (loopB.getD (mapIndex i S (findBestLoopAlignment loopA loopB)) ⟨0, 0, 0⟩)
          (((s + 1 : ℕ) : α) / (span : α))).length = state.1.length + S * (span - 1) := by
    rw [List.length_append, hnewlen]
  have hgrid : ∀ i' st', i' < S → st' ≤ span →
      (if st' = 0 then boundaryA.getD i' 0
       else if st' = span then
         boundaryB.getD (mapIndex i' S (findBestLoopAlignment loopA loopB)) 0
       else state.1.length + i' * (span - 1) + (st' - 1)) <
        state.1.length + S * (span - 1) := by
    intro i' st' hi' hst'
    by_cases hz : st' = 0
    · rw [if_pos hz]
      rcases getD_mem_or_default boundaryA i' 0 with hd | hm
      · rw [hd]; omega
      · have := hA _ hm; omega
    · rw [if_neg hz]
      by_cases hsp : st' = span
      · rw [if_pos hsp]
        rcases getD_mem_or_default boundaryB
            (mapIndex i' S (findBestLoopAlignment loopA loopB)) 0 with hd | hm
        · rw [hd]; omega
        · have := hBv _ hm; omega
      · rw [if_neg hsp]
        have hmul : i' * (span - 1) ≤ (S - 1) * (span - 1) :=
          Nat.mul_le_mul_right _ (by omega)
        have hh : (S - 1) * (span - 1) = S * (span - 1) - (span - 1) :=
          Nat.sub_one_mul (S) (span - 1) ▸ rfl
        have hle : span - 1 ≤ S * (span - 1) := Nat.le_mul_of_pos_left _ (by omega)
        omega
  constructor
  · intro i hi
    rw [hlen2]
    rcases List.mem_append.mp hi with hold | hnew
    · have := hstate i hold; omega
    · obtain ⟨i0, hi0, hmem⟩ := List.mem_flatMap.mp hnew
      obtain ⟨st, hst, hmem2⟩ := List.mem_flatMap.mp hmem
      have hi0' : i0 < S := List.mem_range.mp hi0
      have hst' : st < span := List.mem_range.mp hst
      have hmod : (i0 + 1) % S < S := Nat.mod_lt _ hS
      simp only [List.mem_cons, List.not_mem_nil, or_false] at hmem2
      rcases hmem2 with rfl | rfl | rfl | rfl | rfl | rfl
      · exact hgrid i0 st hi0' (by omega)
      · exact hgrid _ st hmod (by omega)
      · exact hgrid _ (st + 1) hmod (by omega)
      · exact hgrid i0 st hi0' (by omega)
      · exact hgrid _ (st + 1) hmod (by omega)
      · exact hgrid i0 (st + 1) hi0' (by omega)
  · rw [hlen2]
    omega

end SoapFilm

namespace SoapFilm

variable {α : Type} [LinearOrderedField α] [FloorRing α]

theorem worldLoop_length (ops : RealOps α) (r : FrameRuntime α) (S : ℕ) :
    (worldLoop ops r S).length = S := by
  show ((sampleFrameBoundaryLocal ops r.state S).map (applyMatrix4 r.worldMatrix)).length = S
  rw [List.length_map, sampleFrameBoundaryLocal, List.length_map, List.length_range]

theorem processEdgeFold_invariant (ops : RealOps α) (S span B : ℕ)
    (hS : 0 < S) (hspan : 2 ≤ span) (hBpos : 0 < B)
    (loopByFrame : String → Option (List (Vec3 α)))
    (bIdx : String → Option (List ℕ))
    (hbIdx : ∀ s l, bIdx s = some l → ∀ v ∈ l, v < B) :
    ∀ (edges : List (MstEdge α)) (state : List (Vec3 α) × List ℕ),
      (∀ i ∈ state.2, i < state.1.length) → B ≤ state.1.length →
      (∀ i ∈ (edges.foldl (processEdge ops S span loopByFrame bIdx) state).2,
        i < (edges.foldl (processEdge ops S span loopByFrame bIdx) state).1.length) ∧
      B ≤ (edges.foldl (processEdge ops S span loopByFrame bIdx) state).1.length
  | [], state, hstate, hB => ⟨hstate, hB⟩
  | e :: rest, state, hstate, hB => by
    have h1 := processEdge_invariant ops S span B hS hspan hBpos loopByFrame bIdx hbIdx
      state e hstate hB
    exact processEdgeFold_invariant ops S span B hS hspan hBpos loopByFrame bIdx hbIdx
      rest (processEdge ops S span loopByFrame bIdx state e) h1.1 h1.2

/-- C3: for at least 2 input frames, every emitted triangle index references
a valid vertex, the boundary-constraint count is `sampleCount × number of
frames`, and `sampleCount = max(8, min of the frames' configured boundary
sample counts)`. -/
theorem buildFilmTopology_invariants (ops : RealOps α)
    (frames : List (FrameRuntime α)) (options : BuildTopologyOptions)
    (h2 : 2 ≤ frames.length) :
    (∀ i ∈ (buildFilmTopology ops frames options).indices,
      i < (buildFilmTopology ops frames options).positions.length) ∧
    (buildFilmTopology ops frames options).boundaryConstraints.length =
      (buildFilmTopology ops frames options).sampleCount * frames.length ∧
    (buildFilmTopology ops frames options).sampleCount =
      max 8 ((frames.map fun r => r.state.boundarySamples).min?.getD 0) := by
  have hnot : ¬ frames.length < 2 := by omega
  simp only [buildFilmTopology, if_neg hnot]
  set S := max 8 ((frames.map fun r => r.state.boundarySamples).min?.getD 0) with hSdef
  set span := max 2 (options.spanSubdivisions.getD 24) with hspandef
  have hS : 0 < S := by omega
  have hspan : 2 ≤ span := by omega
  have hBpos : 0 < frames.length * S := by positivity
  refine ⟨?_, ?_, by first | rfl | trivial⟩
  · -- index validity via the fold invariant
    have hinit1 : ((frames.map fun r => (r.id, worldLoop ops r S)).flatMap Prod.snd).length =
        frames.length * S := by
      rw [List.length_flatMap]
      have hmap : List.map (fun p => p.2.length)
          (frames.map fun r => (r.id, worldLoop ops r S)) =
          List.replicate frames.length S := by
        rw [List.map_map, List.eq_replicate_iff]
        constructor
        · rw [List.length_map]
        · intro b hb
          obtain ⟨r, hr, rfl⟩ := List.mem_map.mp hb
          exact worldLoop_length ops r S
      rw [show (List.length ∘ Prod.snd) = (fun p : String × List (Vec3 α) => p.2.length)
        from rfl, hmap, List.sum_replicate, smul_eq_mul]
    have hbIdx := boundaryIndexPairs_values frames.length S (frames.map fun r => r.id)
    have hfold := processEdgeFold_invariant ops S span (frames.length * S) hS hspan hBpos
      (fun s => lookupLast (frames.map fun r => (r.id, worldLoop ops r S)) s)
      (fun s => lookupLast ((List.range frames.length).map fun k =>
        ((frames.map fun r => r.id).getD k "",
         (List.range S).map fun i => k * S + i)) s)
      hbIdx
      (buildMst ops (frames.map fun r => r.id)
        (fun s => lookupLast (frames.map fun r => (r.id, matrixPosition r.worldMatrix)) s))
      ((frames.map fun r => (r.id, worldLoop ops r S)).flatMap Prod.snd, [])
      (by simp)
      (by rw [hinit1])
    exact hfold.1
  · -- constraint count
    rw [flatMap_const_length frames.length S]
    exact Nat.mul_comm frames.length S

end SoapFilm

namespace SoapFilm

variable {α : Type} [LinearOrderedField α] [FloorRing α]

/-- Identity world matrix for concrete witnesses. -/
def idMat4 : Mat4 ℚ := ⟨1, 0, 0, 0, 0, 1, 0, 0, 0, 0, 1, 0, 0, 0, 0, 1⟩

/-- Concrete witness frames. -/
def frameW1 : FrameRuntime ℚ := ⟨"a", ⟨.circle, 1, 2, 14/10, 8, []⟩, idMat4⟩

def frameW2 : FrameRuntime ℚ := ⟨"b", ⟨.rectangle, 1, 2, 14/10, 8, []⟩, idMat4⟩

/-- Witness for `buildFilmTopology_invariants` on two concrete frames. -/
theorem buildFilmTopology_invariants_witness :
    (2 ≤ ([frameW1, frameW2] : List (FrameRuntime ℚ)).length) ∧
    ((∀ i ∈ (buildFilmTopology ratOps [frameW1, frameW2] ⟨some 2⟩).indices,
        i < (buildFilmTopology ratOps [frameW1, frameW2] ⟨some 2⟩).positions.length) ∧
      (buildFilmTopology ratOps [frameW1, frameW2] ⟨some 2⟩).boundaryConstraints.length =
        (buildFilmTopology ratOps [frameW1, frameW2] ⟨some 2⟩).sampleCount * 2 ∧
      (buildFilmTopology ratOps [frameW1, frameW2] ⟨some 2⟩).sampleCount =
        max 8 ((([frameW1, frameW2] : List (FrameRuntime ℚ)).map
          fun r => r.state.boundarySamples).min?.getD 0)) :=
  ⟨by decide, buildFilmTopology_invariants ratOps [frameW1, frameW2] ⟨some 2⟩ (by decide)⟩

/-- C7: fewer than 2 input frames yields the explicit empty result (empty
positions, indices and constraints, `sampleCount` 0, `mstEdgeCount` 0); the
function is total, so it never raises. -/
theorem buildFilmTopology_empty_small (ops : RealOps α)
    (frames : List (FrameRuntime α)) (options : BuildTopologyOptions)
    (h : frames.length < 2) :
    buildFilmTopology ops frames options = ⟨[], [], [], 0, 0⟩ := by
  rw [buildFilmTopology, if_pos h]

/-- Witness for `buildFilmTopology_empty_small` with a single frame. -/
theorem buildFilmTopology_empty_small_witness :
    ([frameW1].length < 2) ∧
      buildFilmTopology ratOps [frameW1] ⟨none⟩ = ⟨[], [], [], 0, 0⟩ :=
  ⟨by decide, buildFilmTopology_empty_small ratOps [frameW1] ⟨none⟩ (by decide)⟩

/-- C9 counterexample: a single input frame produces NO boundary constraints
at all (`boundaryConstraints = []`, `sampleCount = 0`) even though the
frame's loop has 8 configured boundary samples — the fewer-than-2 early
return discards the frame, so no constraints bound to zero triangles exist. -/
theorem singleFrame_no_constraints :
    (buildFilmTopology ratOps [frameW1] ⟨none⟩).boundaryConstraints = [] ∧
    (buildFilmTopology ratOps [frameW1] ⟨none⟩).sampleCount = 0 ∧
    frameW1.state.boundarySamples = 8 := by
  have h : buildFilmTopology ratOps [frameW1] ⟨none⟩ = ⟨[], [], [], 0, 0⟩ := by
    rw [buildFilmTopology, if_pos (by decide)]
  rw [h]
  exact ⟨rfl, rfl, rfl⟩

/-- Amended C9: a single input frame hits the fewer-than-2 early return and
gets no boundary constraints; the per-frame constraint recording — every
frame contributing `sampleCount` constraints, independent of which MST
edges are bridged — happens only when at least two frames are given. -/
theorem singleFrame_topology_empty (ops : RealOps α)
    (frames : List (FrameRuntime α)) (options : BuildTopologyOptions)
    (h1 : frames.length = 1) :
    buildFilmTopology ops frames options = ⟨[], [], [], 0, 0⟩ ∧
    ∀ frames2 : List (FrameRuntime α), 2 ≤ frames2.length →
      (buildFilmTopology ops frames2 options).boundaryConstraints =
        (List.range frames2.length).flatMap fun k =>
          (List.range (buildFilmTopology ops frames2 options).sampleCount).map fun i =>
            ⟨k * (buildFilmTopology ops frames2 options).sampleCount + i,
             (frames2.map fun r => r.id).getD k "",
             (i : α) / ((buildFilmTopology ops frames2 options).sampleCount : α)⟩ := by
  constructor
  · rw [buildFilmTopology, if_pos (by omega)]
  · intro frames2 hf2
    simp only [buildFilmTopology, if_neg (show ¬ frames2.length < 2 by omega)]

/-- Witness for `singleFrame_topology_empty` at a concrete single frame. -/
theorem singleFrame_topology_empty_witness :
    ([frameW1].length = 1) ∧
      (buildFilmTopology ratOps [frameW1] ⟨none⟩ = ⟨[], [], [], 0, 0⟩ ∧
       ∀ frames2 : List (FrameRuntime ℚ), 2 ≤ frames2.length →
        (buildFilmTopology ratOps frames2 ⟨none⟩).boundaryConstraints =
          (List.range frames2.length).flatMap fun k =>
            (List.range (buildFilmTopology ratOps frames2 ⟨none⟩).sampleCount).map fun i =>
              ⟨k * (buildFilmTopology ratOps frames2 ⟨none⟩).sampleCount + i,
               (frames2.map fun r => r.id).getD k "",
               (i : ℚ) / ((buildFilmTopology ratOps frames2 ⟨none⟩).sampleCount : ℚ)⟩) :=
  ⟨by decide, singleFrame_topology_empty ratOps [frameW1] ⟨none⟩ (by decide)⟩

end SoapFilm

namespace SoapFilm

variable {α : Type} [LinearOrderedField α] [FloorRing α]

/-- A minimal reference heap for the frame-effect claim about
`createFilmState`: JavaScript objects hold references to buffers;
`.slice()` allocates a fresh buffer, while plain field assignment shares the
reference.  Numeric buffers (`Float32Array`) live in `numBufs` and are the
only buffers the modelled operations mutate; index buffers and constraint
arrays live in their own read-only stores. -/
structure Heap (α : Type) where
  next : ℕ
  numBufs : ℕ → List α
  natBufs : ℕ → List ℕ
  constrBufs : ℕ → List (BoundaryConstraint α)

/-- Allocate a fresh numeric buffer (`.slice()` / `new Float32Array`). -/
def allocBuf (h : Heap α) (content : List α) : Heap α × ℕ :=
  (⟨h.next + 1, fun r => if r = h.next then content else h.numBufs r,
    h.natBufs, h.constrBufs⟩, h.next)

/-- Overwrite the contents of an existing numeric buffer (the in-place
`.set(...)` / `.fill(...)` writes of the solver). -/
def writeBuf (h : Heap α) (r : ℕ) (content : List α) : Heap α :=
  ⟨h.next, fun q => if q = r then content else h.numBufs q, h.natBufs, h.constrBufs⟩

/-- A `FilmTopologyBuildResult` as a heap object (buffer references). -/
structure TopologyObj where
  positionsRef : ℕ
  indicesRef : ℕ
  constraintsRef : ℕ
  sampleCount : ℕ
  mstEdgeCount : ℕ

/-- A `FilmState` as a heap object. -/
structure FilmStateObj (α : Type) where
  positionsRef : ℕ
  velocitiesRef : ℕ
  indicesRef : ℕ
  constraintsRef : ℕ
  restPositionsRef : ℕ
  solverConfig : SolverConfig α

/-- `Partial<SolverConfig>` (optional overrides). -/
structure PartialSolverConfig (α : Type) where
  substeps : Option ℕ := none
  stepSize : Option α := none
  damping : Option α := none
  laplacianWeight : Option α := none
  relaxationStrength : Option α := none
  shapeRetention : Option α := none

/-- The spread merge `{ ...DEFAULT_SOLVER_CONFIG, ...solverConfig }`. -/
def mergeConfig (d : SolverConfig α) (p : PartialSolverConfig α) : SolverConfig α :=
  ⟨p.substeps.getD d.substeps, p.stepSize.getD d.stepSize, p.damping.getD d.damping,
   p.laplacianWeight.getD d.laplacianWeight,
   p.relaxationStrength.getD d.relaxationStrength,
   p.shapeRetention.getD d.shapeRetention⟩

/-- `createFilmState` (solver.ts lines 26-41) at the heap level: two
`.slice()` copies of `topology.positions` (for `positions` and
`restPositions`), a zero-filled velocity buffer of the same length, and
reference-shared `indices` and `boundaryConstraints`. -/
def createFilmStateH (h : Heap α) (topo : TopologyObj) (p : PartialSolverConfig α) :
    Heap α × FilmStateObj α :=
  let h1 := (allocBuf h (h.numBufs topo.positionsRef)).1
  let posRef := h.next
  let h2 := (allocBuf h1 (List.replicate (h1.numBufs topo.positionsRef).length 0)).1
  let velRef := h1.next
  let h3 := (allocBuf h2 (h2.numBufs topo.positionsRef)).1
  let restRef := h2.next
  (h3, ⟨posRef, velRef, topo.indicesRef, topo.constraintsRef, restRef,
    mergeConfig (DEFAULT_SOLVER_CONFIG α) p⟩)

/-- `runRelaxationStep` at the heap level: the pure step computes the new
buffer contents; the heap effect writes them back into the film state's own
`positions` and `velocities` buffers (the only `FilmState` buffers the
source's step mutates). -/
def runRelaxationStepH (ops : RealOps α) (h : Heap α) (fs : FilmStateObj α)
    (ctx : SolverContext) (sampler : BoundaryConstraint α → Option (Vec3 α))
    (computeArea : Bool) : Heap α × α :=
  let st : FilmState α := ⟨h.numBufs fs.positionsRef, h.numBufs fs.velocitiesRef,
    h.natBufs fs.indicesRef, h.constrBufs fs.constraintsRef,
    h.numBufs fs.restPositionsRef, fs.solverConfig⟩
  let res := runRelaxationStep ops st ctx sampler computeArea
  (writeBuf (writeBuf h fs.positionsRef res.1.1) fs.velocitiesRef res.1.2, res.2)

/-- `resetFilmState` at the heap level. -/
def resetFilmStateH (h : Heap α) (fs : FilmStateObj α) : Heap α :=
  writeBuf (writeBuf h fs.positionsRef (h.numBufs fs.restPositionsRef))
    fs.velocitiesRef ((h.numBufs fs.velocitiesRef).map fun _ => 0)

/-- C10: `createFilmState` makes `positions` and `restPositions` fresh
element-wise copies of `topology.positions` (so they are equal to it — and
to each other — initially), zero-fills `velocities`, does not alias the
topology's position buffer (so no later `runRelaxationStep` or
`resetFilmState` on the film state can change it), and shares `indices` and
`boundaryConstraints` with the topology by reference. -/
theorem createFilmState_fresh_buffers (ops : RealOps α) (h : Heap α)
    (topo : TopologyObj) (p : PartialSolverConfig α)
    (hvalid : topo.positionsRef < h.next) :
    ∀ hc : Heap α × FilmStateObj α, hc = createFilmStateH h topo p →
      (hc.1.numBufs hc.2.positionsRef = h.numBufs topo.positionsRef ∧
       hc.1.numBufs hc.2.restPositionsRef = h.numBufs topo.positionsRef ∧
       hc.1.numBufs hc.2.velocitiesRef =
         List.replicate (h.numBufs topo.positionsRef).length 0) ∧
      (hc.2.positionsRef ≠ topo.positionsRef ∧
       hc.2.restPositionsRef ≠ topo.positionsRef ∧
       hc.1.numBufs topo.positionsRef = h.numBufs topo.positionsRef) ∧
      ((∀ ctx sampler b,
         (runRelaxationStepH ops hc.1 hc.2 ctx sampler b).1.numBufs topo.positionsRef =
           hc.1.numBufs topo.positionsRef) ∧
       (resetFilmStateH hc.1 hc.2).numBufs topo.positionsRef =
         hc.1.numBufs topo.positionsRef) ∧
      (hc.2.indicesRef = topo.indicesRef ∧ hc.2.constraintsRef = topo.constraintsRef) := by
  intro hc hhc
  subst hhc
  have hres : createFilmStateH h topo p =
      (⟨h.next + 3,
        fun r =>
          if r = h.next + 2 then h.numBufs topo.positionsRef
          else if r = h.next + 1 then
            List.replicate (h.numBufs topo.positionsRef).length 0
          else if r = h.next then h.numBufs topo.positionsRef
          else h.numBufs r,
        h.natBufs, h.constrBufs⟩,
       ⟨h.next, h.next + 1, topo.indicesRef, topo.constraintsRef, h.next + 2,
        mergeConfig (DEFAULT_SOLVER_CONFIG α) p⟩) := by
    unfold createFilmStateH allocBuf
    simp only
    refine Prod.ext ?_ rfl
    refine congrArg (fun f => Heap.mk (h.next + 3) f h.natBufs h.constrBufs) ?_
    funext r
    split_ifs <;> first | rfl | omega
  rw [hres]
  refine ⟨⟨?_, ?_, ?_⟩, ⟨?_, ?_, ?_⟩, ⟨?_, ?_⟩, rfl, rfl⟩
  · dsimp only
    rw [if_neg (by omega), if_neg (by omega), if_pos rfl]
  · dsimp only
    rw [if_pos rfl]
  · dsimp only
    rw [if_neg (by omega), if_pos rfl]
  · dsimp only
    omega
  · dsimp only
    omega
  · dsimp only
    rw [if_neg (by omega), if_neg (by omega), if_neg (by omega)]
  · intro ctx sampler b
    dsimp only [runRelaxationStepH, writeBuf]
    rw [if_neg (by omega), if_neg (by omega)]
  · dsimp only [resetFilmStateH, writeBuf]
    rw [if_neg (by omega), if_neg (by omega)]

/-- Witness heap/topology for `createFilmState_fresh_buffers`. -/
def heapW : Heap ℚ := ⟨1, fun _ => [1, 2, 3], fun _ => [0, 1, 2], fun _ => []⟩

def topoW : TopologyObj := ⟨0, 0, 0, 8, 1⟩

/-- Witness for `createFilmState_fresh_buffers` at a concrete heap. -/
theorem createFilmState_fresh_buffers_witness :
    (topoW.positionsRef < heapW.next) ∧
      (∀ hc : Heap ℚ × FilmStateObj ℚ,
        hc = createFilmStateH heapW topoW ⟨none, none, none, none, none, none⟩ →
        (hc.1.numBufs hc.2.positionsRef = heapW.numBufs topoW.positionsRef ∧
         hc.1.numBufs hc.2.restPositionsRef = heapW.numBufs topoW.positionsRef ∧
         hc.1.numBufs hc.2.velocitiesRef =
           List.replicate (heapW.numBufs topoW.positionsRef).length 0) ∧
        (hc.2.positionsRef ≠ topoW.positionsRef ∧
         hc.2.restPositionsRef ≠ topoW.positionsRef ∧
         hc.1.numBufs topoW.positionsRef = heapW.numBufs topoW.positionsRef) ∧
        ((∀ ctx sampler b,
           (runRelaxationStepH ratOps hc.1 hc.2 ctx sampler b).1.numBufs
               topoW.positionsRef = hc.1.numBufs topoW.positionsRef) ∧
         (resetFilmStateH hc.1 hc.2).numBufs topoW.positionsRef =
           hc.1.numBufs topoW.positionsRef) ∧
        (hc.2.indicesRef = topoW.indicesRef ∧ hc.2.constraintsRef = topoW.constraintsRef)) :=
  ⟨by decide, createFilmState_fresh_buffers ratOps heapW topoW
    ⟨none, none, none, none, none, none⟩ (by decide)⟩

end SoapFilm
